import Mathlib

/-!
Shallow embedding of `fastlzlib.c` (zlib-like streaming interface to FastLZ).

Byte buffers are modelled as `List Nat`; reads of unwritten memory yield `0`,
and values are reduced modulo 256 exactly where the C code performs byte
arithmetic (the `READ_*` / `WRITE_*` macros).  Machine `uInt` arithmetic is
modelled by `Nat` with explicit `% 2^32` where the code can overflow.  The
external FastLZ block primitives (`fastlz_compress_level`, `fastlz_decompress`,
declared in `fastlz.c`) are external collaborators and are modelled as an
abstract structure of pure functions.  The caller-facing stream descriptor
(`zfast_stream`, declared in the missing header `fastlzlib.h`) is modelled
from the spec: cursors `next_in`/`avail_in`, `next_out`/`avail_out`, running
totals, and the internal state; the standard zlib status codes are modelled
as an inductive type.  The null-pointer misuse guards of the C code have no
counterpart: buffer windows are always-present list values.
-/

namespace Fastlzlib

/-- Read `n` bytes of a buffer starting at `off`; memory beyond the list reads 0. -/
def memRead (buf : List Nat) (off n : Nat) : List Nat :=
  (List.range n).map (fun i => buf.getD (off + i) 0)

/-- Write `data` into `buf` at offset `off` (array write on zero-defaulted memory). -/
def listWrite (buf : List Nat) (off : Nat) (data : List Nat) : List Nat :=
  buf.take off ++ List.replicate (off - buf.length) 0 ++ data ++ buf.drop (off + data.length)

/-- `HEADER_SIZE` -/
def HEADER_SIZE : Nat := 20
/-- `MIN_BLOCK_SIZE` -/
def MIN_BLOCK_SIZE : Nat := 64
/-- `DEFAULT_BLOCK_SIZE` -/
def DEFAULT_BLOCK_SIZE : Nat := 32768
/-- `BLOCK_TYPE_RAW` -/
def BLOCK_TYPE_RAW : Nat := 0xc0
/-- `BLOCK_TYPE_COMPRESSED` -/
def BLOCK_TYPE_COMPRESSED : Nat := 0x0c
/-- `BLOCK_TYPE_BAD_MAGIC` -/
def BLOCK_TYPE_BAD_MAGIC : Nat := 0xffff
/-- `ZFAST_LEVEL_DECOMPRESS` -/
def ZFAST_LEVEL_DECOMPRESS : Int := -2

/-- The 7 magic bytes of a stream block header: ASCII `FastLZ` with trailing NUL. -/
def BLOCK_MAGIC : List Nat := [0x46, 0x61, 0x73, 0x74, 0x4C, 0x5A, 0x00]

/-- `BUFFER_BLOCK_SIZE(S)` : estimated upper boundary of compressed size
(`EXPANSION_RATIO = 10`, two header sizes of security). -/
def bufferBlockSize (bs : Nat) : Nat := bs + bs / 10 + HEADER_SIZE * 2

/-- zlib flush mode `Z_NO_FLUSH` -/
def Z_NO_FLUSH : Int := 0
/-- zlib flush mode `Z_FINISH` -/
def Z_FINISH : Int := 4

/-- Modelled from the spec: the status codes of the missing header
`fastlzlib.h` (mirroring zlib's `Z_OK`, `Z_STREAM_END`, ...). -/
inductive ZRet where
  | ok
  | streamEnd
  | streamError
  | dataError
  | memError
  | bufError
  | versionError
deriving Repr, DecidableEq

/-- A single byte of buffer memory, as the C `unsigned char` read does. -/
def byteAt (buf : List Nat) (i : Nat) : Nat := buf.getD i 0 % 256

/-- `READ_32` : little-endian 32-bit read. -/
def rd32 (buf : List Nat) (off : Nat) : Nat :=
  byteAt buf off + byteAt buf (off + 1) * 256 +
    byteAt buf (off + 2) * 65536 + byteAt buf (off + 3) * 16777216

/-- `WRITE_32` : little-endian 32-bit write (value implicitly mod 2^32). -/
def le32 (n : Nat) : List Nat :=
  [n % 256, n / 256 % 256, n / 65536 % 256, n / 16777216 % 256]

/-- The 7-byte `memcmp` against `BLOCK_MAGIC` succeeds. -/
def MagicOk (src : List Nat) : Prop :=
  (List.range 7).map (byteAt src) = BLOCK_MAGIC

instance instDecidableMagicOk (src : List Nat) : Decidable (MagicOk src) :=
  inferInstanceAs (Decidable ((List.range 7).map (byteAt src) = BLOCK_MAGIC))

/-- Decoded block header fields. -/
structure Header where
  btype : Nat
  block_size : Nat
  compressed : Nat
  original : Nat
deriving Repr, DecidableEq

/-- `fastlz_write_header` : magic, type byte, compressed length (offset 8),
original length (offset 12), block size (offset 16), all little-endian. -/
def fastlz_write_header (btype block_size compressed original : Nat) : List Nat :=
  BLOCK_MAGIC ++ [btype % 256] ++ le32 compressed ++ le32 original ++ le32 block_size

/-- `fastlz_read_header` : verify the magic; on success read the type byte and
the size fields.  Note the source reads both `original` and `block_size`
from offset 12. -/
def fastlz_read_header (source : List Nat) : Header :=
  if MagicOk source then
    { btype := byteAt source 7
      compressed := rd32 source 8
      original := rd32 source 12
      block_size := rd32 source 12 }
  else
    { btype := BLOCK_TYPE_BAD_MAGIC, compressed := 0, original := 0, block_size := 0 }

/-- `fastlzlibGetStreamBlockSize` -/
def fastlzlibGetStreamBlockSize (input : List Nat) (len : Int) : Nat :=
  if len ≥ (HEADER_SIZE : Int) then (fastlz_read_header input).block_size else 0

/-- `fastlzlibIsCompressedStream` -/
def fastlzlibIsCompressedStream (input : List Nat) (len : Int) : ZRet :=
  if len ≥ (HEADER_SIZE : Int) then
    if fastlzlibGetStreamBlockSize input len ≠ 0 then ZRet.ok else ZRet.dataError
  else ZRet.bufError

/-- The external FastLZ block primitives of `fastlz.c` (external collaborator):
`compress lvl src` is `fastlz_compress_level`, `decompress src dstCap` returns
the bytes written by `fastlz_decompress` (so `done` is its length). -/
structure FastLZ where
  compress : Nat → List Nat → List Nat
  decompress : List Nat → Nat → List Nat

/-- `zlibLevelToFastlz` -/
def zlibLevelToFastlz (level : Int) : Nat := if level ≤ 1 then 1 else 2

/-- `fastlz_compress_hdr` : frame one input block (COMPRESSED above
`MIN_BLOCK_SIZE`, RAW otherwise, nothing when empty), then append the EOF
marker when flushing with `Z_FINISH`.  Returns the emitted bytes. -/
def fastlz_compress_hdr (F : FastLZ) (input : List Nat) (block_size level : Nat)
    (flush : Int) : List Nat :=
  let main :=
    if input.length > 0 then
      if input.length > MIN_BLOCK_SIZE then
        let c := F.compress level input
        fastlz_write_header BLOCK_TYPE_COMPRESSED block_size c.length input.length ++ c
      else
        fastlz_write_header BLOCK_TYPE_RAW block_size input.length input.length ++ input
    else []
  main ++ (if flush = Z_FINISH then
    fastlz_write_header BLOCK_TYPE_COMPRESSED block_size 0 0 else [])

/-- `struct internal_state` (the opaque state behind the stream descriptor). -/
structure ZState where
  level : Int
  inHdr : List Nat
  inHdrOffs : Nat
  block_size : Nat
  block_type : Nat
  str_size : Nat
  dec_size : Nat
  inBuff : List Nat
  outBuff : List Nat
  inBuffOffs : Nat
  outBuffOffs : Nat
deriving Repr, DecidableEq

/-- Modelled from the spec: the caller-visible stream descriptor
(`zfast_stream` of the missing header `fastlzlib.h`).  `next_in` is the
remaining input window (so `avail_in` is its length), `written` accumulates the
bytes stored through `next_out`, and `avail_out` is the remaining output room. -/
structure ZStream where
  next_in : List Nat
  total_in : Nat
  written : List Nat
  avail_out : Nat
  total_out : Nat
  state : ZState
deriving Repr, DecidableEq

/-- `avail_in` of the descriptor: length of the remaining input window. -/
def ZStream.avail_in (s : ZStream) : Nat := s.next_in.length

/-- `inSeek` : consume `offs` input bytes. -/
def inSeek (s : ZStream) (offs : Nat) : ZStream :=
  { s with next_in := s.next_in.drop offs, total_in := s.total_in + offs }

/-- Write bytes through `next_out` and seek (`memcpy` + `outSeek`). -/
def outWrite (s : ZStream) (bytes : List Nat) : ZStream :=
  { s with written := s.written ++ bytes
           avail_out := s.avail_out - bytes.length
           total_out := s.total_out + bytes.length }

/-- `fastlzlibInit` : fresh internal state storing the (uInt-cast) block size.
Allocation is modelled as always succeeding; fresh buffers read as zeros. -/
def fastlzlibInitState (block_size : Int) : ZState :=
  { level := 0
    inHdr := []
    inHdrOffs := 0
    block_size := (block_size % 4294967296).toNat
    block_type := 0
    str_size := 0
    dec_size := 0
    inBuff := []
    outBuff := []
    inBuffOffs := 0
    outBuffOffs := 0 }

/-- `fastlzlibCompressInit2` : out-of-range levels clamp to `Z_BEST_COMPRESSION`. -/
def fastlzlibCompressInit2 (level block_size : Int) : ZState :=
  let st := fastlzlibInitState block_size
  { st with level := if level < 0 ∨ level > 9 then 9 else level }

/-- `fastlzlibCompressInit` -/
def fastlzlibCompressInit (level : Int) : ZState :=
  fastlzlibCompressInit2 level 32768

/-- `fastlzlibDecompressInit2` -/
def fastlzlibDecompressInit2 (block_size : Int) : ZState :=
  { fastlzlibInitState block_size with level := ZFAST_LEVEL_DECOMPRESS }

/-- `fastlzlibDecompressInit` -/
def fastlzlibDecompressInit : ZState :=
  fastlzlibDecompressInit2 32768

/-- The header staging loop of `fastlzlibProcess` (decompression side):
when a header read is in progress or the window is short, either refuse
(`none`, leading to `BUF_ERROR`) when unbuffered with nothing staged, or copy
up to `HEADER_SIZE - inHdrOffs` input bytes into `inHdr`. -/
def processHeaderStage (may_buffer : Bool) (s : ZStream) : Option ZStream :=
  if s.state.inHdrOffs ≠ 0 ∨ s.avail_in < HEADER_SIZE then
    if s.state.inHdrOffs = 0 ∧ ¬may_buffer then none
    else
      let k := min (HEADER_SIZE - s.state.inHdrOffs) s.avail_in
      if k = 0 then some s
      else
        some (inSeek
          { s with state :=
            { s.state with
                inHdr := listWrite s.state.inHdr s.state.inHdrOffs (s.next_in.take k)
                inHdrOffs := s.state.inHdrOffs + k } } k)
  else some s

/-- The header parse step of `fastlzlibProcess` (decompression side): parse
from caller memory when untouched and fully available (with the one-shot
checks in unbuffered mode), or from a completed `inHdr`, or early-return `OK`
(header not fully staged yet). -/
def processHeaderParse (may_buffer : Bool) (s1 : ZStream) :
    Except (ZRet × ZStream) (Nat × ZStream) :=
  if s1.state.inHdrOffs = 0 ∧ s1.avail_in ≥ HEADER_SIZE then
    let h := fastlz_read_header s1.next_in
    if ¬may_buffer ∧ s1.avail_in < h.compressed then .error (ZRet.bufError, s1)
    else if ¬may_buffer ∧ s1.avail_out < h.original then .error (ZRet.bufError, s1)
    else
      .ok (h.block_size, inSeek
        { s1 with state :=
          { s1.state with
              block_type := h.btype
              str_size := h.compressed
              dec_size := h.original } } HEADER_SIZE)
  else if s1.state.inHdrOffs = HEADER_SIZE then
    let h := fastlz_read_header s1.state.inHdr
    .ok (h.block_size,
      { s1 with state :=
        { s1.state with
            block_type := h.btype
            str_size := h.compressed
            dec_size := h.original
            inHdrOffs := 0 } })
  else
    .error (ZRet.ok, s1)

/-- Header-acquisition step on the decompression side (`fastlzlibProcess`
lines "decompressing: header is present"): stage a split header into `inHdr`,
then parse it.  `Except.error` carries an early return of the whole call;
`Except.ok` carries the parsed local `block_size` and the updated stream. -/
def processHeaderDecompress (may_buffer : Bool) (s : ZStream) :
    Except (ZRet × ZStream) (Nat × ZStream) :=
  match processHeaderStage may_buffer s with
  | none => .error (ZRet.bufError, s)
  | some s1 => processHeaderParse may_buffer s1

/-- Header synthesis on the compression side (`fastlzlibProcess` lines
"decompressing: fixed input size (unless flush)"): a full `block_size` block,
truncated to `avail_in` under a flush; `dec_size` is yet unknown. -/
def processHeaderCompress (flush : Int) (may_buffer : Bool) (s : ZStream) :
    Except (ZRet × ZStream) (Nat × ZStream) :=
  if s.state.block_size > s.avail_in ∧ ¬(flush > Z_NO_FLUSH) ∧ ¬may_buffer then
    .error (ZRet.bufError, s)
  else
    let strSize :=
      if s.state.block_size > s.avail_in ∧ flush > Z_NO_FLUSH then s.avail_in
      else s.state.block_size
    .ok (0,
      { s with state :=
        { s.state with
            block_type := BLOCK_TYPE_COMPRESSED
            str_size := strSize
            dec_size := 0 } })

/-- The sanity checks, EOF-marker detection and direct payload grab of
`fastlzlibProcess` run after a header has been applied (the caller has
already stored the drain-complete sentinel `outBuffOffs = dec_size`). -/
def processChecks (bsLocal : Nat) (s2 : ZStream) :
    Except (ZRet × ZStream) (Option (List Nat) × ZStream) :=
  if s2.state.block_type = BLOCK_TYPE_BAD_MAGIC then
    .error (ZRet.dataError, s2)
  else if s2.state.block_type ≠ BLOCK_TYPE_RAW ∧
      s2.state.block_type ≠ BLOCK_TYPE_COMPRESSED then
    .error (ZRet.versionError, s2)
  else if bsLocal > s2.state.block_size then
    .error (ZRet.versionError, s2)
  else if s2.state.dec_size > bufferBlockSize s2.state.block_size then
    .error (ZRet.versionError, s2)
  else if s2.state.str_size > bufferBlockSize s2.state.block_size then
    .error (ZRet.versionError, s2)
  else if s2.state.str_size = 0 ∧ s2.state.dec_size = 0 then
    .error (ZRet.streamEnd, s2)
  else if s2.avail_in ≥ s2.state.str_size then
    .ok (some (s2.next_in.take s2.state.str_size), inSeek s2 s2.state.str_size)
  else
    .ok (none, { s2 with state := { s2.state with inBuffOffs := 0 } })

/-- The "read next block" section of `fastlzlibProcess` (entered when
`str_size == 0`): acquire or synthesize the block header, run the sanity
checks, detect the EOF marker, and grab the payload directly from caller
memory when it is fully available. -/
def processAcquire (flush : Int) (may_buffer : Bool) (s : ZStream) :
    Except (ZRet × ZStream) (Option (List Nat) × ZStream) :=
  if s.state.str_size ≠ 0 then .ok (none, s)
  else
    let hdr :=
      if s.state.level = ZFAST_LEVEL_DECOMPRESS then processHeaderDecompress may_buffer s
      else processHeaderCompress flush may_buffer s
    match hdr with
    | .error r => .error r
    | .ok (bsLocal, s1) =>
      processChecks bsLocal
        { s1 with state := { s1.state with outBuffOffs := s1.state.dec_size } }

/-- The buffered-payload section of `fastlzlibProcess`: copy as much input as
possible into `inBuff`; the block is complete when `inBuffOffs` reaches
`str_size`, or is force-truncated by a non-`NO_FLUSH` flush. -/
def processPayload (flush : Int) (inOpt : Option (List Nat)) (s : ZStream) :
    Option (List Nat) × ZStream :=
  match inOpt with
  | some l => (some l, s)
  | none =>
    let s1 :=
      if s.state.inBuffOffs < s.state.str_size then
        let size := min (s.state.str_size - s.state.inBuffOffs) s.avail_in
        if size > 0 then
          inSeek
            { s with state :=
              { s.state with
                  inBuff := listWrite s.state.inBuff s.state.inBuffOffs (s.next_in.take size)
                  inBuffOffs := s.state.inBuffOffs + size } } size
        else s
      else s
    if s1.state.inBuffOffs = s1.state.str_size then
      (some (memRead s1.state.inBuff 0 s1.state.str_size), s1)
    else if flush ≠ Z_NO_FLUSH then
      let s2 := { s1 with state := { s1.state with str_size := s1.state.inBuffOffs } }
      (some (memRead s2.state.inBuff 0 s2.state.str_size), s2)
    else (none, s1)

/-- The transform section of `fastlzlibProcess` ("we have a complete
compressed block"): decompress or compress the complete payload `l`, directly
into caller memory when there is room, otherwise into `outBuff`. -/
def processTransform (F : FastLZ) (flush : Int) (l : List Nat) (s : ZStream) :
    Except (ZRet × ZStream) ZStream :=
  let in_size := s.state.str_size
  let inBytes := memRead l 0 in_size
  let flush_now := if flush = Z_FINISH ∧ s.avail_in ≠ 0 then Z_NO_FLUSH else flush
  if s.state.level = ZFAST_LEVEL_DECOMPRESS then
    let out_size := s.state.dec_size
    let pr : List Nat × Nat :=
      if s.state.block_type = BLOCK_TYPE_COMPRESSED then
        let r := F.decompress inBytes out_size
        (r, r.length)
      else if s.state.block_type = BLOCK_TYPE_RAW then
        if out_size ≥ in_size then (inBytes, in_size) else ([], 0)
      else ([], 0)
    if s.avail_out ≥ out_size then
      let s1 := outWrite
        { s with state := { s.state with outBuffOffs := s.state.dec_size, str_size := 0 } }
        (memRead pr.1 0 out_size)
      if pr.2 ≠ out_size then .error (ZRet.streamError, s1) else .ok s1
    else
      let s1 :=
        { s with state :=
          { s.state with
              outBuff := listWrite s.state.outBuff 0 pr.1
              outBuffOffs := 0
              str_size := 0 } }
      if pr.2 ≠ out_size then .error (ZRet.streamError, s1) else .ok s1
  else
    let produced :=
      fastlz_compress_hdr F inBytes s.state.block_size
        (zlibLevelToFastlz s.state.level) flush_now
    if s.avail_out ≥ in_size + in_size / 10 + 66 then
      .ok (outWrite
        { s with state := { s.state with outBuffOffs := s.state.dec_size, str_size := 0 } }
        produced)
    else
      .ok
        { s with state :=
          { s.state with
              outBuff := listWrite s.state.outBuff 0 produced
              dec_size := produced.length
              outBuffOffs := 0
              str_size := 0 } }

/-- The final success return of `fastlzlibProcess`: `STREAM_END` on a finishing
flush with no input left and no buffered output pending, else `OK`. -/
def processEnd (flush : Int) (s : ZStream) : ZRet × ZStream :=
  if flush = Z_FINISH ∧ s.avail_in = 0 ∧ ¬(s.state.outBuffOffs < s.state.dec_size) then
    (ZRet.streamEnd, s)
  else (ZRet.ok, s)

/-- `fastlzlibProcess` : the compression and decompression processing routine.
Drains buffered output first, otherwise acquires a header (when `str_size` is
0), stages or grabs the payload, and transforms a complete block. -/
def fastlzlibProcess (F : FastLZ) (s : ZStream) (flush : Int) (may_buffer : Bool) :
    ZRet × ZStream :=
  if s.state.outBuffOffs < s.state.dec_size then
    let size := min (s.state.dec_size - s.state.outBuffOffs) s.avail_out
    let s1 := { s with state := { s.state with outBuffOffs := s.state.outBuffOffs + size } }
    (ZRet.ok, outWrite s1 (memRead s.state.outBuff s.state.outBuffOffs size))
  else
    match processAcquire flush may_buffer s with
    | .error r => r
    | .ok (inOpt, s1) =>
      match processPayload flush inOpt s1 with
      | (none, s2) => processEnd flush s2
      | (some l, s2) =>
        match processTransform F flush l s2 with
        | .error r => r
        | .ok s3 => processEnd flush s3

/-- `fastlzlibDecompress2` -/
def fastlzlibDecompress2 (F : FastLZ) (s : ZStream) (may_buffer : Bool) : ZRet × ZStream :=
  if s.state.level = ZFAST_LEVEL_DECOMPRESS then
    fastlzlibProcess F s Z_NO_FLUSH may_buffer
  else (ZRet.streamError, s)

/-- `fastlzlibDecompress` -/
def fastlzlibDecompress (F : FastLZ) (s : ZStream) : ZRet × ZStream :=
  fastlzlibDecompress2 F s true

/-- `fastlzlibCompress2` -/
def fastlzlibCompress2 (F : FastLZ) (s : ZStream) (flush : Int) (may_buffer : Bool) :
    ZRet × ZStream :=
  if ¬(s.state.level = ZFAST_LEVEL_DECOMPRESS) then
    fastlzlibProcess F s flush may_buffer
  else (ZRet.streamError, s)

/-- `fastlzlibCompress` -/
def fastlzlibCompress (F : FastLZ) (s : ZStream) (flush : Int) : ZRet × ZStream :=
  fastlzlibCompress2 F s flush true

/-- The scan loop of `fastlzlibDecompressSync`: advance one byte at a time
while a full header's worth of input remains, stopping at the first position
whose magic matches and whose parsed block-size field is nonzero. -/
def syncScan (s : ZStream) : ZRet × ZStream :=
  if _h : s.avail_in ≥ HEADER_SIZE then
    if MagicOk s.next_in ∧ fastlzlibGetStreamBlockSize s.next_in 20 ≠ 0 then
      (ZRet.ok, s)
    else
      syncScan (inSeek
        { s with state := { s.state with inHdrOffs := s.state.inHdrOffs + 1 } } 1)
  else (ZRet.dataError, s)
termination_by s.next_in.length
decreasing_by
  simp only [inSeek, ZStream.avail_in, HEADER_SIZE] at *
  simp only [List.length_drop]
  omega

/-- `fastlzlibDecompressSync` -/
def fastlzlibDecompressSync (s : ZStream) : ZRet × ZStream :=
  if s.state.level = ZFAST_LEVEL_DECOMPRESS then
    if s.state.outBuffOffs < s.state.dec_size then (ZRet.ok, s)
    else if s.avail_in < HEADER_SIZE then (ZRet.bufError, s)
    else syncScan { s with state := { s.state with inHdrOffs := 0 } }
  else (ZRet.streamError, s)

/-! ### Vocabulary for the theorems -/

/-- A trivial instantiation of the external block primitives, used on code
paths that never invoke them. -/
def trivialFastLZ : FastLZ :=
  { compress := fun _ _ => [], decompress := fun _ _ => [] }

/-- A caller-side stream descriptor around an internal state: input window,
no output written yet, `avail_out` bytes of output room. -/
def mkStream (st : ZState) (inp : List Nat) (availOut : Nat) : ZStream :=
  { next_in := inp, total_in := 0, written := [], avail_out := availOut,
    total_out := 0, state := st }

/-- The position `l` is a sync point: the 7 magic bytes match and the parsed
block-size field (the 32-bit word at offset 12) is nonzero. -/
def SyncHit (l : List Nat) : Prop := MagicOk l ∧ rd32 l 12 ≠ 0

instance instDecidableSyncHit (l : List Nat) : Decidable (SyncHit l) :=
  inferInstanceAs (Decidable (MagicOk l ∧ rd32 l 12 ≠ 0))

/-- The stream after the sync scan has advanced `i` bytes. -/
def syncAdvance (s : ZStream) (i : Nat) : ZStream :=
  { s with next_in := s.next_in.drop i
           total_in := s.total_in + i
           state := { s.state with inHdrOffs := s.state.inHdrOffs + i } }

/-! ### Helper lemmas -/

theorem memRead_length (buf : List Nat) (off n : Nat) : (memRead buf off n).length = n := by
  simp [memRead]

theorem memRead_eq_self (X : List Nat) : memRead X 0 X.length = X := by
  apply List.ext_getElem
  · simp [memRead]
  · intro i h1 h2
    simp [memRead, List.getD_eq_getElem?_getD, List.getElem?_eq_getElem h2]

theorem magicOk_write_header (btype bs compressed original : Nat) :
    MagicOk (fastlz_write_header btype bs compressed original) := rfl

theorem memRead_append_left (X r : List Nat) : memRead (X ++ r) 0 X.length = X := by
  apply List.ext_getElem
  · simp [memRead]
  · intro i h1 h2
    have hi : i < X.length := by simpa [memRead] using h1
    simp [memRead, List.getD_eq_getElem?_getD, List.getElem?_append_left hi,
      List.getElem?_eq_getElem hi]

theorem memRead_memRead_self (l : List Nat) (n : Nat) :
    memRead (memRead l 0 n) 0 n = memRead l 0 n := by
  have h := memRead_eq_self (memRead l 0 n)
  rwa [memRead_length] at h

theorem memRead_listWrite_zero (buf X : List Nat) :
    memRead (listWrite buf 0 X) 0 X.length = X := by
  have h : listWrite buf 0 X = X ++ buf.drop X.length := by
    simp [listWrite]
  rw [h]
  exact memRead_append_left X _

/-! ### C3 -/

/-- C3: header encode writes the `block_size` field as the little-endian word
at byte offset 16, but header decode takes the `block_size` value from the
32-bit little-endian word at offset 12 (the same bytes as the original-length
field), so the decoded `block_size` always equals the decoded original
length, whatever the bytes at offset 16 are. -/
theorem C3_block_size_aliased_to_original :
    (∀ btype bs compressed original : Nat,
      memRead (fastlz_write_header btype bs compressed original) 16 4 = le32 bs) ∧
    (∀ src : List Nat,
      (fastlz_read_header src).block_size = if MagicOk src then rd32 src 12 else 0) ∧
    (∀ src : List Nat,
      (fastlz_read_header src).block_size = (fastlz_read_header src).original) := by
  refine ⟨fun _ _ _ _ => rfl, fun src => ?_, fun src => ?_⟩
  · by_cases h : MagicOk src <;> simp [fastlz_read_header, h]
  · by_cases h : MagicOk src <;> simp [fastlz_read_header, h]

/-! ### C6 -/

/-- C6 counterexample: the EOF-marker header starts with the correct 7-byte
magic (a valid 20-byte header), yet `fastlzlibIsCompressedStream` answers
`DATA_ERROR`, not `OK`, because the word it reads at offset 12 is zero. -/
theorem C6_counterexample :
    MagicOk (fastlz_write_header BLOCK_TYPE_COMPRESSED 32768 0 0) ∧
    fastlzlibIsCompressedStream (fastlz_write_header BLOCK_TYPE_COMPRESSED 32768 0 0) 20 =
      ZRet.dataError := by
  decide

/-- C6 amended: `fastlzlibIsCompressedStream buf len` returns `BUF_ERROR` when
`len < 20`; when `len ≥ 20` it returns `OK` exactly when the buffer starts
with the 7 magic bytes and the 32-bit word at offset 12 (the original-length
field, which the decoder reads as `block_size`) is nonzero, and `DATA_ERROR`
otherwise — so a correct magic alone does not suffice. -/
theorem C6_is_compressed_stream (buf : List Nat) (len : Int) :
    (len < 20 → fastlzlibIsCompressedStream buf len = ZRet.bufError) ∧
    (20 ≤ len →
      (fastlzlibIsCompressedStream buf len = ZRet.ok ↔ MagicOk buf ∧ rd32 buf 12 ≠ 0) ∧
      (fastlzlibIsCompressedStream buf len = ZRet.dataError ↔
        ¬(MagicOk buf ∧ rd32 buf 12 ≠ 0))) := by
  constructor
  · intro h
    unfold fastlzlibIsCompressedStream
    rw [if_neg]
    unfold HEADER_SIZE
    omega
  · intro h
    have h20 : len ≥ (HEADER_SIZE : Int) := by unfold HEADER_SIZE; omega
    unfold fastlzlibIsCompressedStream fastlzlibGetStreamBlockSize fastlz_read_header
    by_cases hm : MagicOk buf
    · by_cases hz : rd32 buf 12 = 0 <;>
        simp [h20, hm, hz]
    · simp [h20, hm]

/-- C6 witness for the amended characterization at a concrete header. -/
theorem C6_is_compressed_stream_witness :
    fastlzlibIsCompressedStream (fastlz_write_header BLOCK_TYPE_RAW 32768 5 5) 20 =
      ZRet.ok :=
  ((C6_is_compressed_stream (fastlz_write_header BLOCK_TYPE_RAW 32768 5 5) 20).2
    (by decide)).1.mpr (by decide)

/-! ### C8 -/

/-- C8 counterexample: initializing a compress stream with block size 1
stores a `block_size` of 1, below `MIN_BLOCK_SIZE = 64` — no minimum is
enforced by the init routines. -/
theorem C8_counterexample :
    (fastlzlibCompressInit2 0 1).block_size = 1 ∧
    (fastlzlibDecompressInit2 1).block_size = 1 ∧
    ¬(MIN_BLOCK_SIZE ≤ (fastlzlibCompressInit2 0 1).block_size) := by
  decide

/-- C8 amended: the init routines store the caller's block size argument
verbatim (cast to a 32-bit unsigned value) without enforcing
`MIN_BLOCK_SIZE`; `compressInit`/`decompressInit` without an explicit block
size store the default 32768. -/
theorem C8_init_block_size (level block_size : Int) :
    (fastlzlibCompressInit2 level block_size).block_size =
      (block_size % 4294967296).toNat ∧
    (fastlzlibDecompressInit2 block_size).block_size =
      (block_size % 4294967296).toNat ∧
    (fastlzlibCompressInit level).block_size = 32768 ∧
    fastlzlibDecompressInit.block_size = 32768 := by
  refine ⟨rfl, rfl, ?_, by decide⟩
  simp [fastlzlibCompressInit, fastlzlibCompressInit2, fastlzlibInitState]

/-- A compress-side `process` call with no input, a finishing flush and no
block in progress takes the EOF-marker early return: `STREAM_END`, touching
only the internal state. -/
theorem process_compress_empty_finish (F : FastLZ) (s : ZStream)
    (hlv : ¬ s.state.level = ZFAST_LEVEL_DECOMPRESS)
    (hin : s.next_in = []) (hstr : s.state.str_size = 0)
    (hbuf : ¬ s.state.outBuffOffs < s.state.dec_size) :
    ∃ st', fastlzlibProcess F s Z_FINISH true =
      (ZRet.streamEnd, { s with state := st' }) := by
  have havail : s.avail_in = 0 := by simp [ZStream.avail_in, hin]
  have hss : (if s.state.block_size > s.avail_in ∧ Z_FINISH > Z_NO_FLUSH
      then s.avail_in else s.state.block_size) = 0 := by
    rw [havail]
    split
    · rfl
    · rename_i hcond
      simp only [Z_FINISH, Z_NO_FLUSH] at hcond
      omega
  refine ⟨?_, ?_⟩
  · exact { s.state with
      block_type := BLOCK_TYPE_COMPRESSED, str_size := 0, dec_size := 0, outBuffOffs := 0 }
  unfold fastlzlibProcess
  rw [if_neg hbuf]
  unfold processAcquire
  rw [if_neg (by simp [hstr])]
  rw [if_neg hlv]
  unfold processHeaderCompress
  rw [if_neg (by simp)]
  rw [hss]
  simp [processChecks, BLOCK_TYPE_COMPRESSED, BLOCK_TYPE_BAD_MAGIC, bufferBlockSize]

set_option maxRecDepth 4000 in
/-- A decompress-side `process` call whose input window is exactly the EOF
marker parses it on the fast path and returns `STREAM_END`, consuming the 20
header bytes and writing nothing. -/
theorem process_decompress_eof (F : FastLZ) (s : ZStream) (bsv : Nat)
    (hlv : s.state.level = ZFAST_LEVEL_DECOMPRESS)
    (hstr : s.state.str_size = 0) (hhdr : s.state.inHdrOffs = 0)
    (hbuf : ¬ s.state.outBuffOffs < s.state.dec_size)
    (hin : s.next_in = fastlz_write_header BLOCK_TYPE_COMPRESSED bsv 0 0) :
    ∃ st', fastlzlibProcess F s Z_NO_FLUSH true =
      (ZRet.streamEnd,
        { s with
            next_in := ([] : List Nat), total_in := s.total_in + 20, state := st' }) := by
  have havail : s.avail_in = 20 := by
    simp [ZStream.avail_in, hin, fastlz_write_header, BLOCK_MAGIC, le32]
  have hread : fastlz_read_header s.next_in =
      { btype := BLOCK_TYPE_COMPRESSED, block_size := 0, compressed := 0, original := 0 } := by
    rw [hin, fastlz_read_header, if_pos (magicOk_write_header _ _ _ _)]
    simp [rd32, byteAt, fastlz_write_header, BLOCK_MAGIC, le32, BLOCK_TYPE_COMPRESSED]
  have hdrop : s.next_in.drop 20 = [] := by
    rw [hin]
    simp [fastlz_write_header, BLOCK_MAGIC, le32]
  refine ⟨?_, ?_⟩
  · exact { s.state with
      block_type := BLOCK_TYPE_COMPRESSED, str_size := 0, dec_size := 0, outBuffOffs := 0 }
  have hstage : processHeaderStage true s = some s := by
    unfold processHeaderStage
    rw [if_neg (by simp [hhdr, havail, HEADER_SIZE])]
  unfold fastlzlibProcess
  rw [if_neg hbuf]
  unfold processAcquire
  rw [if_neg (by simp [hstr])]
  rw [if_pos hlv]
  unfold processHeaderDecompress
  rw [hstage]
  simp [processHeaderParse, processChecks, hhdr, havail, hread, hdrop, inSeek,
    HEADER_SIZE, BLOCK_TYPE_COMPRESSED, BLOCK_TYPE_BAD_MAGIC, bufferBlockSize]

/-! ### C2 -/

/-- C2 counterexample: compressing the empty input with `Z_FINISH` on a fresh
default stream emits no bytes at all (the 20-byte EOF marker is *not*
written) and returns `STREAM_END`: the process routine takes the
`str_size == 0 && dec_size == 0` early return before ever calling
`fastlz_compress_hdr`. -/
theorem C2_counterexample :
    (fastlzlibCompress trivialFastLZ (mkStream (fastlzlibCompressInit 9) [] 100)
        Z_FINISH).1 = ZRet.streamEnd ∧
    (fastlzlibCompress trivialFastLZ (mkStream (fastlzlibCompressInit 9) [] 100)
        Z_FINISH).2.written = [] := by
  decide

/-- C2 amended: compressing the empty input with `flush == FINISH` on a fresh
compress stream emits no output bytes and returns `STREAM_END` (the EOF
marker is not written); decompressing the 20-byte EOF marker (magic, type
`0x0C`, eight zero length bytes, then the block size little-endian) produces
the empty output and returns `STREAM_END` after consuming all 20 bytes. -/
theorem C2_empty_stream (F : FastLZ) (level bs bsd : Int) (bsv availOut availOut2 : Nat) :
    (fastlzlibCompress F (mkStream (fastlzlibCompressInit2 level bs) [] availOut)
        Z_FINISH).1 = ZRet.streamEnd ∧
    (fastlzlibCompress F (mkStream (fastlzlibCompressInit2 level bs) [] availOut)
        Z_FINISH).2.written = [] ∧
    (fastlzlibDecompress F (mkStream (fastlzlibDecompressInit2 bsd)
        (fastlz_write_header BLOCK_TYPE_COMPRESSED bsv 0 0) availOut2)).1 =
      ZRet.streamEnd ∧
    (fastlzlibDecompress F (mkStream (fastlzlibDecompressInit2 bsd)
        (fastlz_write_header BLOCK_TYPE_COMPRESSED bsv 0 0) availOut2)).2.written = [] ∧
    (fastlzlibDecompress F (mkStream (fastlzlibDecompressInit2 bsd)
        (fastlz_write_header BLOCK_TYPE_COMPRESSED bsv 0 0) availOut2)).2.next_in = [] := by
  have hlv : ¬((fastlzlibCompressInit2 level bs).level = ZFAST_LEVEL_DECOMPRESS) := by
    simp only [fastlzlibCompressInit2, ZFAST_LEVEL_DECOMPRESS]
    split <;> omega
  obtain ⟨st1, h1⟩ := process_compress_empty_finish F
    (mkStream (fastlzlibCompressInit2 level bs) [] availOut) hlv rfl rfl
    (by simp [mkStream, fastlzlibCompressInit2, fastlzlibInitState])
  obtain ⟨st2, h2⟩ := process_decompress_eof F
    (mkStream (fastlzlibDecompressInit2 bsd)
      (fastlz_write_header BLOCK_TYPE_COMPRESSED bsv 0 0) availOut2) bsv
    rfl rfl rfl (by simp [mkStream, fastlzlibDecompressInit2, fastlzlibInitState]) rfl
  have hcall1 : fastlzlibCompress F (mkStream (fastlzlibCompressInit2 level bs) [] availOut)
      Z_FINISH =
      fastlzlibProcess F (mkStream (fastlzlibCompressInit2 level bs) [] availOut)
        Z_FINISH true := by
    unfold fastlzlibCompress fastlzlibCompress2
    exact if_pos hlv
  have hcall2 : fastlzlibDecompress F (mkStream (fastlzlibDecompressInit2 bsd)
      (fastlz_write_header BLOCK_TYPE_COMPRESSED bsv 0 0) availOut2) =
      fastlzlibProcess F (mkStream (fastlzlibDecompressInit2 bsd)
        (fastlz_write_header BLOCK_TYPE_COMPRESSED bsv 0 0) availOut2) Z_NO_FLUSH true := by
    unfold fastlzlibDecompress fastlzlibDecompress2
    exact if_pos rfl
  refine ⟨?_, ?_, ?_, ?_, ?_⟩
  · rw [hcall1, h1]
  · rw [hcall1, h1]
    rfl
  · rw [hcall2, h2]
  · rw [hcall2, h2]
    rfl
  · rw [hcall2, h2]

/-! ### C4 -/

/-- C4 counterexample: a single `fastlzlibDecompress` call on a fresh stream
whose window holds a complete RAW block both parses the block header and
transforms the payload: starting with no block in progress
(`str_size = 0`, `inHdrOffs = 0`), one call consumes all 25 input bytes and
writes the 5 decoded payload bytes. -/
theorem C4_counterexample :
    (mkStream fastlzlibDecompressInit
        (fastlz_write_header BLOCK_TYPE_RAW 32768 5 5 ++ [104, 101, 108, 108, 111])
        100).state.str_size = 0 ∧
    (mkStream fastlzlibDecompressInit
        (fastlz_write_header BLOCK_TYPE_RAW 32768 5 5 ++ [104, 101, 108, 108, 111])
        100).state.inHdrOffs = 0 ∧
    (fastlzlibDecompress trivialFastLZ (mkStream fastlzlibDecompressInit
        (fastlz_write_header BLOCK_TYPE_RAW 32768 5 5 ++ [104, 101, 108, 108, 111])
        100)).1 = ZRet.ok ∧
    (fastlzlibDecompress trivialFastLZ (mkStream fastlzlibDecompressInit
        (fastlz_write_header BLOCK_TYPE_RAW 32768 5 5 ++ [104, 101, 108, 108, 111])
        100)).2.written = [104, 101, 108, 108, 111] ∧
    (fastlzlibDecompress trivialFastLZ (mkStream fastlzlibDecompressInit
        (fastlz_write_header BLOCK_TYPE_RAW 32768 5 5 ++ [104, 101, 108, 108, 111])
        100)).2.total_in = 25 := by
  decide

/-- C4 amended: the phases are considered in the priority order D, H, P, C,
and the drain phase alone is exclusive: a call that drains buffered output
returns `OK` immediately, leaving the input cursor, the header staging and
every block descriptor untouched.  A call that does not drain may however
execute header acquisition, payload acquisition and block transform together
in that order — in particular a single call may both parse a block header
and transform that block's payload. -/
theorem C4_drain_exclusive (F : FastLZ) (flush : Int) (may_buffer : Bool) (s : ZStream)
    (h : s.state.outBuffOffs < s.state.dec_size) :
    (fastlzlibProcess F s flush may_buffer).1 = ZRet.ok ∧
    (fastlzlibProcess F s flush may_buffer).2.next_in = s.next_in ∧
    (fastlzlibProcess F s flush may_buffer).2.total_in = s.total_in ∧
    (fastlzlibProcess F s flush may_buffer).2.state.inHdr = s.state.inHdr ∧
    (fastlzlibProcess F s flush may_buffer).2.state.inHdrOffs = s.state.inHdrOffs ∧
    (fastlzlibProcess F s flush may_buffer).2.state.block_type = s.state.block_type ∧
    (fastlzlibProcess F s flush may_buffer).2.state.str_size = s.state.str_size ∧
    (fastlzlibProcess F s flush may_buffer).2.state.dec_size = s.state.dec_size ∧
    (fastlzlibProcess F s flush may_buffer).2.state.inBuff = s.state.inBuff ∧
    (fastlzlibProcess F s flush may_buffer).2.state.inBuffOffs = s.state.inBuffOffs ∧
    (fastlzlibProcess F s flush may_buffer).2.state.outBuff = s.state.outBuff := by
  unfold fastlzlibProcess
  rw [if_pos h]
  simp [outWrite]

/-- C4 witness: the drain-exclusivity instantiated on a concrete stream with
3 pending buffered bytes. -/
theorem C4_drain_exclusive_witness :
    (fastlzlibProcess trivialFastLZ (mkStream
        { fastlzlibDecompressInit with outBuff := [7, 8, 9], dec_size := 3 } [5] 2)
        Z_NO_FLUSH true).1 = ZRet.ok ∧
    (fastlzlibProcess trivialFastLZ (mkStream
        { fastlzlibDecompressInit with outBuff := [7, 8, 9], dec_size := 3 } [5] 2)
        Z_NO_FLUSH true).2.next_in = [5] := by
  have h := C4_drain_exclusive trivialFastLZ Z_NO_FLUSH true
    (mkStream { fastlzlibDecompressInit with outBuff := [7, 8, 9], dec_size := 3 } [5] 2)
    (by decide)
  exact ⟨h.1, h.2.1⟩

/-! ### C10 -/

/-- C10: a `process` call entered while buffered output is pending
(`outBuffOffs < dec_size`) returns `OK` after copying exactly
`min (dec_size - outBuffOffs) avail_out` bytes of `outBuff` to the output,
and leaves `next_in`, `avail_in` and `total_in` completely unchanged: a drain
call never consumes or inspects input. -/
theorem C10_drain_frame (F : FastLZ) (flush : Int) (may_buffer : Bool) (s : ZStream)
    (h : s.state.outBuffOffs < s.state.dec_size) :
    (fastlzlibProcess F s flush may_buffer).1 = ZRet.ok ∧
    (fastlzlibProcess F s flush may_buffer).2.written =
      s.written ++ memRead s.state.outBuff s.state.outBuffOffs
        (min (s.state.dec_size - s.state.outBuffOffs) s.avail_out) ∧
    (memRead s.state.outBuff s.state.outBuffOffs
        (min (s.state.dec_size - s.state.outBuffOffs) s.avail_out)).length =
      min (s.state.dec_size - s.state.outBuffOffs) s.avail_out ∧
    (fastlzlibProcess F s flush may_buffer).2.state.outBuffOffs =
      s.state.outBuffOffs + min (s.state.dec_size - s.state.outBuffOffs) s.avail_out ∧
    (fastlzlibProcess F s flush may_buffer).2.next_in = s.next_in ∧
    (fastlzlibProcess F s flush may_buffer).2.avail_in = s.avail_in ∧
    (fastlzlibProcess F s flush may_buffer).2.total_in = s.total_in := by
  unfold fastlzlibProcess
  rw [if_pos h]
  simp [outWrite, memRead_length, ZStream.avail_in]

/-- C10 witness: the drain frame property instantiated on a concrete stream
with 3 pending buffered bytes and room for 2. -/
theorem C10_drain_frame_witness :
    (fastlzlibProcess trivialFastLZ (mkStream
        { fastlzlibDecompressInit with outBuff := [7, 8, 9], dec_size := 3 } [4, 5] 2)
        Z_NO_FLUSH true).2.written = [7, 8] ∧
    (fastlzlibProcess trivialFastLZ (mkStream
        { fastlzlibDecompressInit with outBuff := [7, 8, 9], dec_size := 3 } [4, 5] 2)
        Z_NO_FLUSH true).2.total_in = 0 := by
  have h := C10_drain_frame trivialFastLZ Z_NO_FLUSH true
    (mkStream { fastlzlibDecompressInit with outBuff := [7, 8, 9], dec_size := 3 } [4, 5] 2)
    (by decide)
  refine ⟨?_, h.2.2.2.2.2.2⟩
  rw [h.2.1]
  decide

/-! ### C5 -/

/-- C5 counterexample: decompressing a RAW block whose header declares
`compressed = 5` but `original = 0` (so `dec_size = 0 ≠ 5 = str_size`)
succeeds with `OK` and copies nothing, instead of returning `STREAM_ERROR`
as the claim requires. -/
theorem C5_counterexample :
    (fastlzlibDecompress trivialFastLZ (mkStream fastlzlibDecompressInit
        (fastlz_write_header BLOCK_TYPE_RAW 32768 5 0 ++ [104, 101, 108, 108, 111])
        100)).1 = ZRet.ok ∧
    (fastlzlibDecompress trivialFastLZ (mkStream fastlzlibDecompressInit
        (fastlz_write_header BLOCK_TYPE_RAW 32768 5 0 ++ [104, 101, 108, 108, 111])
        100)).2.written = [] := by
  decide

/-- C5 amended: transforming a RAW block succeeds iff `dec_size = str_size`
or `dec_size = 0`; every failure is `STREAM_ERROR`.  On success exactly
`min str_size dec_size` payload bytes reach the output: all `str_size` bytes
when `dec_size = str_size` (directly or via `outBuff`), and none when
`dec_size = 0` — so success implies `dec_size = str_size` only when
`dec_size` is nonzero. -/
theorem C5_raw_transform (F : FastLZ) (flush : Int) (l : List Nat) (s : ZStream)
    (hty : s.state.block_type = BLOCK_TYPE_RAW)
    (hlv : s.state.level = ZFAST_LEVEL_DECOMPRESS) :
    ((∃ s1, processTransform F flush l s = .ok s1) ↔
      (s.state.dec_size = s.state.str_size ∨ s.state.dec_size = 0)) ∧
    (∀ r, processTransform F flush l s = .error r → r.1 = ZRet.streamError) ∧
    (∀ s1, s.avail_out ≥ s.state.dec_size → processTransform F flush l s = .ok s1 →
      s1.written = s.written ++ memRead l 0 (min s.state.str_size s.state.dec_size)) ∧
    (∀ s1, s.avail_out < s.state.dec_size → processTransform F flush l s = .ok s1 →
      s1.written = s.written ∧
      memRead s1.state.outBuff 0 s.state.dec_size = memRead l 0 s.state.str_size) := by
  unfold processTransform
  rw [if_pos hlv, hty]
  by_cases hge : s.state.dec_size ≥ s.state.str_size <;>
    by_cases hav : s.avail_out ≥ s.state.dec_size <;>
    by_cases heq : s.state.str_size = s.state.dec_size
  · -- complete-room success: dec_size = str_size, direct into caller memory
    simp +decide only [BLOCK_TYPE_RAW, BLOCK_TYPE_COMPRESSED, hge, hav, heq, ge_iff_le,
      le_refl, if_true, if_false, ite_true, ite_false, ne_eq, not_true, not_false_iff,
      not_false_eq_true, if_neg, outWrite]
    simp [outWrite, memRead_memRead_self, heq]
    intro hlt
    exact absurd hlt (not_lt.mpr hav)
  · -- direct destination but dec_size ≠ str_size (and dec_size > str_size): error
    simp +decide only [BLOCK_TYPE_RAW, BLOCK_TYPE_COMPRESSED, hge, hav, heq, ge_iff_le,
      le_refl, if_true, if_false, ite_true, ite_false, ne_eq, not_true, not_false_iff]
    simp
    omega
  · -- buffered success: dec_size = str_size, into outBuff
    simp +decide only [BLOCK_TYPE_RAW, BLOCK_TYPE_COMPRESSED, hge, hav, heq, ge_iff_le,
      le_refl, if_true, if_false, ite_true, ite_false, ne_eq, not_true, not_false_iff]
    simp [hav, heq]
    intro hlt
    have h := memRead_listWrite_zero s.state.outBuff (memRead l 0 s.state.dec_size)
    rwa [memRead_length] at h
  · -- buffered, dec_size ≠ str_size: error
    simp +decide only [BLOCK_TYPE_RAW, BLOCK_TYPE_COMPRESSED, hge, hav, heq, ge_iff_le,
      le_refl, if_true, if_false, ite_true, ite_false, ne_eq, not_true, not_false_iff]
    simp
    omega
  · exfalso
    omega
  · -- dec_size < str_size, direct: success only when dec_size = 0
    by_cases hz : s.state.dec_size = 0
    · have hs0 : ¬ s.state.str_size = 0 := by omega
      simp +decide only [BLOCK_TYPE_RAW, BLOCK_TYPE_COMPRESSED, hge, hav, heq, hz, hs0,
        ge_iff_le, le_refl, if_true, if_false, ite_true, ite_false, ne_eq, not_true,
        not_false_iff]
      simp [hs0, hz, outWrite, memRead]
    · have h0 : ¬((0 : Nat) = s.state.dec_size) := by omega
      simp +decide only [BLOCK_TYPE_RAW, BLOCK_TYPE_COMPRESSED, hge, hav, heq, hz, h0,
        ge_iff_le, le_refl, if_true, if_false, ite_true, ite_false, ne_eq, not_true,
        not_false_iff]
      simp [h0]
      omega
  · exfalso
    omega
  · -- dec_size < str_size, buffered (so dec_size > avail_out ≥ 0): error
    have h0 : ¬((0 : Nat) = s.state.dec_size) := by omega
    simp +decide only [BLOCK_TYPE_RAW, BLOCK_TYPE_COMPRESSED, hge, hav, heq, h0,
      ge_iff_le, le_refl, if_true, if_false, ite_true, ite_false, ne_eq, not_true,
      not_false_iff]
    simp [h0]
    omega

/-- C5 witness: the RAW-transform characterization instantiated on a concrete
3-byte RAW block with matching sizes. -/
theorem C5_raw_transform_witness :
    ∃ s1, processTransform trivialFastLZ 0 [1, 2, 3]
      (mkStream { fastlzlibDecompressInit with
        block_type := BLOCK_TYPE_RAW, str_size := 3, dec_size := 3 } [] 10) = .ok s1 :=
  ((C5_raw_transform trivialFastLZ 0 [1, 2, 3]
      (mkStream { fastlzlibDecompressInit with
        block_type := BLOCK_TYPE_RAW, str_size := 3, dec_size := 3 } [] 10)
      rfl rfl).1).mpr (Or.inl rfl)

/-! ### C7 -/

/-- On a buffered call the header staging step never refuses. -/
theorem headerStage_some (s : ZStream) : ∃ s1, processHeaderStage true s = some s1 := by
  unfold processHeaderStage
  simp only [eq_self_iff_true, not_true, and_false, if_false, ite_false]
  split <;> (try split) <;> simp

/-- On a buffered call the header parse step never returns `BUF_ERROR`. -/
theorem headerParse_no_buf (s1 : ZStream) (r : ZRet × ZStream)
    (h : processHeaderParse true s1 = .error r) : r.1 ≠ ZRet.bufError := by
  unfold processHeaderParse at h
  simp only [eq_self_iff_true, not_true, false_and, if_false, ite_false] at h
  split at h
  · simp at h
  · split at h
    · simp at h
    · simp only [Except.error.injEq] at h
      rw [← h]
      simp

theorem headerDecompress_no_buf (s : ZStream) (r : ZRet × ZStream)
    (h : processHeaderDecompress true s = .error r) : r.1 ≠ ZRet.bufError := by
  unfold processHeaderDecompress at h
  obtain ⟨s1, hs⟩ := headerStage_some s
  rw [hs] at h
  exact headerParse_no_buf s1 r h

/-- On a buffered call the compress-side header synthesis always succeeds. -/
theorem headerCompress_ret (flush : Int) (s : ZStream) :
    ∃ p, processHeaderCompress flush true s = .ok p := by
  unfold processHeaderCompress
  simp

/-- The sanity-check step never returns `BUF_ERROR`. -/
theorem checks_no_buf (bsl : Nat) (s1 : ZStream) (r : ZRet × ZStream)
    (h : processChecks bsl s1 = .error r) : r.1 ≠ ZRet.bufError := by
  unfold processChecks at h
  split at h
  · simp only [Except.error.injEq] at h
    rw [← h]
    simp
  · split at h
    · simp only [Except.error.injEq] at h
      rw [← h]
      simp
    · split at h
      · simp only [Except.error.injEq] at h
        rw [← h]
        simp
      · split at h
        · simp only [Except.error.injEq] at h
          rw [← h]
          simp
        · split at h
          · simp only [Except.error.injEq] at h
            rw [← h]
            simp
          · split at h
            · simp only [Except.error.injEq] at h
              rw [← h]
              simp
            · split at h
              · exact absurd h (by simp)
              · exact absurd h (by simp)

/-- On a buffered call the acquisition step never returns `BUF_ERROR`. -/
theorem acquire_no_buf (flush : Int) (s : ZStream) (r : ZRet × ZStream)
    (h : processAcquire flush true s = .error r) : r.1 ≠ ZRet.bufError := by
  unfold processAcquire at h
  split at h
  · exact absurd h (by simp)
  · split at h
    · cases hh : processHeaderDecompress true s with
      | error r2 =>
        rw [hh] at h
        simp only [Except.error.injEq] at h
        rw [← h]
        exact headerDecompress_no_buf s r2 hh
      | ok p =>
        obtain ⟨bsl, s1⟩ := p
        rw [hh] at h
        exact checks_no_buf bsl _ r h
    · obtain ⟨p, hp⟩ := headerCompress_ret flush s
      obtain ⟨bsl, s1⟩ := p
      rw [hp] at h
      exact checks_no_buf bsl _ r h

/-- The transform step only fails with `STREAM_ERROR`. -/
theorem transform_error_stream (F : FastLZ) (flush : Int) (l : List Nat) (s : ZStream)
    (r : ZRet × ZStream) (h : processTransform F flush l s = .error r) :
    r.1 = ZRet.streamError := by
  unfold processTransform at h
  simp only [] at h
  split at h <;> (try split at h) <;> (try split at h) <;> (try split at h) <;>
    (try split at h) <;> (try split at h) <;>
    first
      | (simp only [Except.error.injEq] at h
         rw [← h])
      | (exact absurd h (by simp))

theorem processEnd_ret (flush : Int) (s : ZStream) :
    (processEnd flush s).1 = ZRet.streamEnd ∨ (processEnd flush s).1 = ZRet.ok := by
  unfold processEnd
  split <;> simp

/-- C7: the process routine never returns `BUF_ERROR` on a buffered call:
for every stream state and flush mode, `fastlzlibProcess` with
`may_buffer = true` does not produce `BUF_ERROR`. -/
theorem C7_no_buf_error_when_buffered (F : FastLZ) (s : ZStream) (flush : Int) :
    (fastlzlibProcess F s flush true).1 ≠ ZRet.bufError := by
  unfold fastlzlibProcess
  split
  · simp
  · cases hacq : processAcquire flush true s with
    | error r =>
      exact acquire_no_buf flush s r hacq
    | ok p =>
      obtain ⟨inOpt, s1⟩ := p
      simp only []
      rcases hpp : processPayload flush inOpt s1 with ⟨o2, s2⟩
      cases o2 with
      | none =>
        rcases processEnd_ret flush s2 with he | he <;> simp [he]
      | some l =>
        simp only []
        cases htr : processTransform F flush l s2 with
        | error r =>
          have := transform_error_stream F flush l s2 r htr
          simp [this]
        | ok s3 =>
          rcases processEnd_ret flush s3 with he | he <;> simp [he]

/-! ### C9 -/

theorem syncHit_iff (l : List Nat) :
    SyncHit l ↔ (MagicOk l ∧ fastlzlibGetStreamBlockSize l 20 ≠ 0) := by
  unfold SyncHit fastlzlibGetStreamBlockSize fastlz_read_header
  by_cases hm : MagicOk l <;> simp [hm, HEADER_SIZE]

theorem syncAdvance_zero (s : ZStream) : syncAdvance s 0 = s := rfl

theorem syncAdvance_succ (s : ZStream) (i : Nat) :
    syncAdvance (inSeek
      { s with state := { s.state with inHdrOffs := s.state.inHdrOffs + 1 } } 1) i =
    syncAdvance s (i + 1) := by
  simp only [syncAdvance, inSeek, List.drop_drop]
  congr 1
  · rw [Nat.add_comm]
  · omega
  · congr 1
    omega

/-- The scan loop stops at the first sync point, `i` bytes in. -/
theorem syncScan_found (i : Nat) (s : ZStream)
    (hlen : i + 20 ≤ s.avail_in)
    (hhit : SyncHit (s.next_in.drop i))
    (hmin : ∀ j, j < i → ¬ SyncHit (s.next_in.drop j)) :
    syncScan s = (ZRet.ok, syncAdvance s i) := by
  induction i generalizing s with
  | zero =>
    rw [syncScan]
    rw [dif_pos (by unfold HEADER_SIZE; omega)]
    rw [if_pos (by simpa using (syncHit_iff s.next_in).mp (by simpa using hhit))]
    rw [syncAdvance_zero]
  | succ i IH =>
    rw [syncScan]
    rw [dif_pos (by unfold HEADER_SIZE; omega)]
    rw [if_neg (by
      intro hc
      exact hmin 0 (Nat.succ_pos i) (by simpa using (syncHit_iff s.next_in).mpr hc))]
    rw [IH _ ?_ ?_ ?_]
    · rw [syncAdvance_succ]
    · simp only [ZStream.avail_in, inSeek, List.length_drop]
      simp only [ZStream.avail_in] at hlen
      omega
    · simp only [inSeek, List.drop_drop]
      rw [Nat.add_comm]
      exact hhit
    · intro j hj
      simp only [inSeek, List.drop_drop]
      rw [Nat.add_comm]
      exact hmin (j + 1) (by omega)

/-- The scan loop fails with `DATA_ERROR` when no position in the window (with
a full header remaining) is a sync point. -/
theorem syncScan_notfound (s : ZStream)
    (h : ∀ i, i + 20 ≤ s.avail_in → ¬ SyncHit (s.next_in.drop i)) :
    (syncScan s).1 = ZRet.dataError := by
  generalize hn : s.next_in.length = n
  induction n using Nat.strong_induction_on generalizing s with
  | _ n IH =>
    rw [syncScan]
    split
    · rename_i hge
      rw [if_neg (by
        intro hc
        exact h 0 (by unfold HEADER_SIZE at hge; simpa [ZStream.avail_in] using hge)
          (by simpa using (syncHit_iff s.next_in).mpr hc))]
      apply IH (n - 1) ?_ _ ?_ ?_
      · unfold HEADER_SIZE at hge
        simp [ZStream.avail_in] at hge
        omega
      · intro i hi
        simp only [inSeek, List.drop_drop, ZStream.avail_in, List.length_drop] at hi ⊢
        rw [Nat.add_comm 1 i]
        apply h (i + 1)
        simp [ZStream.avail_in]
        omega
      · simp [inSeek, hn]
    · simp

/-- C9: `fastlzlibDecompressSync` on a decompress stream returns `OK` at once
when buffered output is pending; otherwise `BUF_ERROR` when fewer than 20
input bytes remain; otherwise it resets `inHdrOffs` and scans forward one
byte at a time, returning `OK` at the first position whose 7 leading bytes
match the magic and whose parsed block-size word is nonzero (leaving
`next_in` at that header, `inHdrOffs` counting the skipped bytes), and
`DATA_ERROR` when the window has no such position. -/
theorem C9_decompress_sync (s : ZStream)
    (hlv : s.state.level = ZFAST_LEVEL_DECOMPRESS) :
    (s.state.outBuffOffs < s.state.dec_size →
      fastlzlibDecompressSync s = (ZRet.ok, s)) ∧
    (¬ s.state.outBuffOffs < s.state.dec_size → s.avail_in < 20 →
      fastlzlibDecompressSync s = (ZRet.bufError, s)) ∧
    (∀ i, ¬ s.state.outBuffOffs < s.state.dec_size → i + 20 ≤ s.avail_in →
      SyncHit (s.next_in.drop i) → (∀ j, j < i → ¬ SyncHit (s.next_in.drop j)) →
      fastlzlibDecompressSync s =
        (ZRet.ok,
          { s with
              next_in := s.next_in.drop i, total_in := s.total_in + i,
              state := { s.state with inHdrOffs := i } })) ∧
    (¬ s.state.outBuffOffs < s.state.dec_size → 20 ≤ s.avail_in →
      (∀ i, i + 20 ≤ s.avail_in → ¬ SyncHit (s.next_in.drop i)) →
      (fastlzlibDecompressSync s).1 = ZRet.dataError) := by
  refine ⟨?_, ?_, ?_, ?_⟩
  · intro hb
    unfold fastlzlibDecompressSync
    rw [if_pos hlv, if_pos hb]
  · intro hb hlen
    unfold fastlzlibDecompressSync
    rw [if_pos hlv, if_neg hb, if_pos (by unfold HEADER_SIZE; omega)]
  · intro i hb hlen hhit hmin
    unfold fastlzlibDecompressSync
    rw [if_pos hlv, if_neg hb, if_neg (by unfold HEADER_SIZE; omega)]
    rw [syncScan_found i { s with state := { s.state with inHdrOffs := 0 } }
      (by exact hlen) (by exact hhit) (by exact hmin)]
    simp [syncAdvance]
  · intro hb hlen hnone
    unfold fastlzlibDecompressSync
    rw [if_pos hlv, if_neg hb, if_neg (by unfold HEADER_SIZE; omega)]
    exact syncScan_notfound _ hnone

/-- C9 witness: the scan finds the header planted 3 garbage bytes into the
window. -/
theorem C9_decompress_sync_witness :
    fastlzlibDecompressSync (mkStream fastlzlibDecompressInit
      ([1, 2, 3] ++ fastlz_write_header BLOCK_TYPE_RAW 32768 5 5 ++ [9, 9, 9, 9, 9]) 0) =
      (ZRet.ok,
        { mkStream fastlzlibDecompressInit
            ([1, 2, 3] ++ fastlz_write_header BLOCK_TYPE_RAW 32768 5 5 ++ [9, 9, 9, 9, 9]) 0 with
            next_in := ([1, 2, 3] ++ fastlz_write_header BLOCK_TYPE_RAW 32768 5 5 ++
              [9, 9, 9, 9, 9]).drop 3,
            total_in := 0 + 3,
            state := { fastlzlibDecompressInit with inHdrOffs := 3 } }) := by
  have h := (C9_decompress_sync (mkStream fastlzlibDecompressInit
    ([1, 2, 3] ++ fastlz_write_header BLOCK_TYPE_RAW 32768 5 5 ++ [9, 9, 9, 9, 9]) 0)
    rfl).2.2.1
  exact h 3 (by decide) (by decide) (by decide) (by decide)

/-! ### C1 : round-trip infrastructure -/

/-- Ample per-call output room used by the round-trip drivers (the claim
partitions the input of each direction, not its output windows). -/
def BIG_OUT : Nat := 1073741824

/-- Drive `fastlzlibProcess` with a fixed flush over the current input window
until the window is exhausted, giving every call ample output room. -/
def processLoop (F : FastLZ) (flush : Int) : Nat → ZStream → ZStream
  | 0, s => s
  | fuel + 1, s =>
    if s.next_in = [] then s
    else processLoop F flush fuel
      (fastlzlibProcess F { s with avail_out := BIG_OUT } flush true).2

/-- Feed the stream a list of input chunks, draining each fully in turn. -/
def feedChunks (F : FastLZ) (flush : Int) (chunks : List (List Nat)) (s : ZStream) :
    ZStream :=
  chunks.foldl (fun s c =>
    processLoop F flush (c.length + s.next_in.length + 1)
      { s with next_in := s.next_in ++ c }) s

/-- Drive finishing `Z_FINISH` calls until `STREAM_END` (or fuel runs out);
the boolean records whether the stream ended cleanly. -/
def finishLoop (F : FastLZ) : Nat → ZStream → ZStream × Bool
  | 0, s => (s, false)
  | fuel + 1, s =>
    match fastlzlibProcess F { s with avail_out := BIG_OUT } Z_FINISH true with
    | (ZRet.streamEnd, s1) => (s1, true)
    | (ZRet.ok, s1) => finishLoop F fuel s1
    | (_, s1) => (s1, false)

/-- Run the compress stream over the given input chunks with trailing
`FINISH` calls. -/
def compressRun (F : FastLZ) (level bs : Int) (chunks : List (List Nat)) :
    ZStream × Bool :=
  let s0 := mkStream (fastlzlibCompressInit2 level bs) [] 0
  let s1 := feedChunks F Z_NO_FLUSH chunks s0
  finishLoop F 2 s1

/-- Run the decompress stream over the given chunks of a compressed stream. -/
def decompressRun (F : FastLZ) (bs : Int) (chunks : List (List Nat)) : ZStream :=
  feedChunks F Z_NO_FLUSH chunks (mkStream (fastlzlibDecompressInit2 bs) [] 0)

/-- One wire block as the decoder sees it: a type byte, the payload bytes on
the wire, and the bytes the block decodes to. -/
structure Frame where
  btype : Nat
  payload : List Nat
  decoded : List Nat
deriving Repr, DecidableEq

/-- The EOF marker viewed as a payload-less frame. -/
def eofFrame : Frame :=
  { btype := BLOCK_TYPE_COMPRESSED, payload := [], decoded := [] }

/-- The 20 header bytes of a frame in a stream with block size `bs`. -/
def Frame.hdrBytes (bs : Nat) (f : Frame) : List Nat :=
  fastlz_write_header f.btype bs f.payload.length f.decoded.length

/-- The wire bytes of a frame: header then payload. -/
def Frame.wireBytes (bs : Nat) (f : Frame) : List Nat :=
  f.hdrBytes bs ++ f.payload

/-- The wire bytes of a frame sequence. -/
def wireOf (bs : Nat) (fs : List Frame) : List Nat :=
  (fs.map (Frame.wireBytes bs)).flatten

/-- A data frame the decoder accepts and decodes correctly in a stream with
block size `bs`, given the external primitives `F`. -/
def Frame.Valid (F : FastLZ) (bs : Nat) (f : Frame) : Prop :=
  f.decoded ≠ [] ∧ f.decoded.length ≤ bs ∧
  f.payload.length ≤ bufferBlockSize bs ∧
  f.payload.length < 4294967296 ∧ f.decoded.length < 4294967296 ∧
  ((f.btype = BLOCK_TYPE_RAW ∧ f.payload = f.decoded) ∨
    (f.btype = BLOCK_TYPE_COMPRESSED ∧
      F.decompress f.payload f.decoded.length = f.decoded))

/-- A well-formed remaining frame sequence: valid data frames, with at most a
final EOF marker. -/
def FramesOk (F : FastLZ) (bs : Nat) : List Frame → Prop
  | [] => True
  | f :: rest => (Frame.Valid F bs f ∧ FramesOk F bs rest) ∨ (f = eofFrame ∧ rest = [])

/-- A decoder position inside a frame sequence: at a (possibly partially
staged) header of the first remaining frame, or inside the first remaining
frame's payload with `m` bytes staged. -/
inductive DPos where
  | atHeader (fs : List Frame) (h : Nat)
  | inPayload (f : Frame) (fs : List Frame) (m : Nat)
deriving Repr

/-- The wire bytes still to be consumed from a position. -/
def DPos.rest (bs : Nat) : DPos → List Nat
  | .atHeader fs h => (wireOf bs fs).drop h
  | .inPayload f fs m => f.payload.drop m ++ wireOf bs fs

/-- The decoded bytes still to be produced from a position. -/
def DPos.decRest : DPos → List Nat
  | .atHeader fs _ => (fs.map Frame.decoded).flatten
  | .inPayload f fs _ => f.decoded ++ (fs.map Frame.decoded).flatten

/-- The frame the encoder emits for one uncompressed piece `p`. -/
def pieceFrame (F : FastLZ) (lv : Nat) (p : List Nat) : Frame :=
  if p.length > MIN_BLOCK_SIZE then
    { btype := BLOCK_TYPE_COMPRESSED, payload := F.compress lv p, decoded := p }
  else
    { btype := BLOCK_TYPE_RAW, payload := p, decoded := p }

/-- The bytes the encoder emits for one piece under a non-finishing flush. -/
def cblock (F : FastLZ) (lv bs : Nat) (p : List Nat) : List Nat :=
  fastlz_compress_hdr F p bs lv Z_NO_FLUSH

/-! ### C1 : byte-level lemmas -/

theorem memRead_getD (buf : List Nat) (off n i : Nat) :
    (memRead buf off n).getD i 0 = if i < n then buf.getD (off + i) 0 else 0 := by
  unfold memRead
  by_cases h : i < n
  · rw [if_pos h]
    rw [List.getD_eq_getElem?_getD]
    rw [List.getElem?_eq_getElem (by simpa using h)]
    simp
  · rw [if_neg h]
    rw [List.getD_eq_getElem?_getD]
    rw [List.getElem?_eq_none (by simpa using Nat.le_of_not_lt h)]
    rfl

theorem memRead_eq_take (l : List Nat) (n : Nat) (h : n ≤ l.length) :
    memRead l 0 n = l.take n := by
  apply List.ext_getElem
  · simp [memRead, h]
  · intro i h1 h2
    have hi : i < n := by simpa [memRead] using h1
    have hil : i < l.length := by omega
    simp [memRead, List.getD_eq_getElem?_getD, List.getElem?_eq_getElem hil]

theorem memRead_pad (buf : List Nat) (m : Nat) :
    memRead buf 0 m = buf.take m ++ List.replicate (m - buf.length) 0 := by
  by_cases h : m ≤ buf.length
  · rw [memRead_eq_take _ _ h, Nat.sub_eq_zero_of_le h]
    simp
  · obtain ⟨k, hk⟩ : ∃ k, m = buf.length + k := ⟨m - buf.length, by omega⟩
    subst hk
    unfold memRead
    rw [List.range_add, List.map_append, List.map_map]
    rw [List.take_of_length_le (by omega), Nat.add_sub_cancel_left]
    congr 1
    · apply List.ext_getElem (by simp)
      intro i h1 h2
      simp [List.getD_eq_getElem?_getD, List.getElem?_eq_getElem h2]
    · apply List.ext_getElem (by simp)
      intro i h1 h2
      have h1' : i < k := by simpa using h1
      simp [List.getD_eq_getElem?_getD,
        List.getElem?_eq_none (show buf.length ≤ buf.length + i by omega)]

theorem memRead_listWrite (buf data : List Nat) (m : Nat) :
    memRead (listWrite buf m data) 0 (m + data.length) = memRead buf 0 m ++ data := by
  have hlw : listWrite buf m data =
      (buf.take m ++ List.replicate (m - buf.length) 0) ++
        (data ++ buf.drop (m + data.length)) := by
    simp [listWrite]
  have hplen : (buf.take m ++ List.replicate (m - buf.length) 0).length = m := by
    simp
    omega
  have hP : (buf.take m ++ List.replicate (m - buf.length) 0).take (m + data.length) =
      buf.take m ++ List.replicate (m - buf.length) 0 :=
    List.take_of_length_le (by rw [hplen]; omega)
  rw [memRead_eq_take _ _ (by rw [hlw]; simp; omega), hlw,
    List.take_append_eq_append_take, hplen, hP, Nat.add_sub_cancel_left,
    List.take_append_eq_append_take, List.take_length,
    Nat.sub_self, List.take_zero, List.append_nil, memRead_pad]

theorem fastlz_read_header_congr (a b : List Nat)
    (h : ∀ i, i < 20 → a.getD i 0 = b.getD i 0) :
    fastlz_read_header a = fastlz_read_header b := by
  have hbyte : ∀ i, i < 20 → byteAt a i = byteAt b i := by
    intro i hi
    unfold byteAt
    rw [h i hi]
  have hm : MagicOk a ↔ MagicOk b := by
    unfold MagicOk
    have : (List.range 7).map (byteAt a) = (List.range 7).map (byteAt b) := by
      apply List.map_congr_left
      intro i hi
      exact hbyte i (by simp at hi; omega)
    rw [this]
  unfold fastlz_read_header rd32
  by_cases hma : MagicOk a
  · rw [if_pos hma, if_pos (hm.mp hma)]
    simp only [Nat.reduceAdd]
    rw [hbyte 7 (by omega), hbyte 8 (by omega), hbyte 9 (by omega), hbyte 10 (by omega),
      hbyte 11 (by omega), hbyte 12 (by omega), hbyte 13 (by omega), hbyte 14 (by omega),
      hbyte 15 (by omega)]
  · rw [if_neg hma, if_neg (fun hb2 => hma (hm.mpr hb2))]

theorem fastlz_read_header_append (t bsv c o : Nat) (rest : List Nat)
    (ht : t < 256) (hc : c < 4294967296) (ho : o < 4294967296) :
    fastlz_read_header (fastlz_write_header t bsv c o ++ rest) =
      { btype := t, block_size := o, compressed := c, original := o } := by
  have hm : MagicOk (fastlz_write_header t bsv c o ++ rest) := rfl
  have hb : byteAt (fastlz_write_header t bsv c o ++ rest) 7 = t := by
    simp [byteAt, fastlz_write_header, BLOCK_MAGIC, le32]
    omega
  have h8 : rd32 (fastlz_write_header t bsv c o ++ rest) 8 = c := by
    simp [rd32, byteAt, fastlz_write_header, BLOCK_MAGIC, le32]
    omega
  have h12 : rd32 (fastlz_write_header t bsv c o ++ rest) 12 = o := by
    simp [rd32, byteAt, fastlz_write_header, BLOCK_MAGIC, le32]
    omega
  rw [fastlz_read_header, if_pos hm, hb, h8, h12]

theorem write_header_length (t b c o : Nat) :
    (fastlz_write_header t b c o).length = 20 := rfl

theorem hdrBytes_length (bs : Nat) (f : Frame) : (f.hdrBytes bs).length = 20 :=
  write_header_length _ _ _ _

theorem fastlz_read_header_extend (w rest : List Nat) (hlen : 20 ≤ w.length) :
    fastlz_read_header (w ++ rest) = fastlz_read_header w := by
  apply fastlz_read_header_congr
  intro i hi
  exact List.getD_append _ _ _ _ (by omega)

/-! ### C1 : pipeline composition lemmas -/

theorem processAcquire_pass (flush : Int) (mb : Bool) (s : ZStream)
    (hstr : s.state.str_size ≠ 0) :
    processAcquire flush mb s = .ok (none, s) := by
  simp [processAcquire, hstr]

theorem processAcquire_ok (flush : Int) (mb : Bool) (s : ZStream) (bsl : Nat) (s1 : ZStream)
    (hstr : s.state.str_size = 0)
    (hhdr : (if s.state.level = ZFAST_LEVEL_DECOMPRESS then processHeaderDecompress mb s
             else processHeaderCompress flush mb s) = .ok (bsl, s1)) :
    processAcquire flush mb s =
      processChecks bsl { s1 with state := { s1.state with outBuffOffs := s1.state.dec_size } } := by
  simp only [processAcquire, hstr, ne_eq, not_true_eq_false, if_false, hhdr]

theorem processAcquire_err (flush : Int) (mb : Bool) (s : ZStream) (r : ZRet × ZStream)
    (hstr : s.state.str_size = 0)
    (hhdr : (if s.state.level = ZFAST_LEVEL_DECOMPRESS then processHeaderDecompress mb s
             else processHeaderCompress flush mb s) = .error r) :
    processAcquire flush mb s = .error r := by
  simp only [processAcquire, hstr, ne_eq, not_true_eq_false, if_false, hhdr]

theorem process_run_err (F : FastLZ) (flush : Int) (mb : Bool) (s : ZStream)
    (r : ZRet × ZStream)
    (hdrain : ¬ s.state.outBuffOffs < s.state.dec_size)
    (hacq : processAcquire flush mb s = .error r) :
    fastlzlibProcess F s flush mb = r := by
  unfold fastlzlibProcess
  rw [if_neg hdrain, hacq]

theorem process_run_none (F : FastLZ) (flush : Int) (mb : Bool) (s : ZStream)
    (inOpt : Option (List Nat)) (s1 s2 : ZStream)
    (hdrain : ¬ s.state.outBuffOffs < s.state.dec_size)
    (hacq : processAcquire flush mb s = .ok (inOpt, s1))
    (hpay : processPayload flush inOpt s1 = (none, s2)) :
    fastlzlibProcess F s flush mb = processEnd flush s2 := by
  unfold fastlzlibProcess
  rw [if_neg hdrain, hacq]
  simp only [hpay]

theorem process_run_some (F : FastLZ) (flush : Int) (mb : Bool) (s : ZStream)
    (inOpt : Option (List Nat)) (s1 : ZStream) (l : List Nat) (s2 s3 : ZStream)
    (hdrain : ¬ s.state.outBuffOffs < s.state.dec_size)
    (hacq : processAcquire flush mb s = .ok (inOpt, s1))
    (hpay : processPayload flush inOpt s1 = (some l, s2))
    (htr : processTransform F flush l s2 = .ok s3) :
    fastlzlibProcess F s flush mb = processEnd flush s3 := by
  unfold fastlzlibProcess
  rw [if_neg hdrain, hacq]
  simp only [hpay, htr]

/-! ### C1 : frame and wire lemmas -/

theorem getD_take_lt (l : List Nat) (n i : Nat) (h : i < n) :
    (l.take n).getD i 0 = l.getD i 0 := by
  simp [List.getD_eq_getElem?_getD, List.getElem?_take_of_lt h]

theorem memRead_of_length (X : List Nat) (n : Nat) (h : X.length = n) :
    memRead X 0 n = X := by
  rw [← h]
  exact memRead_eq_self X

theorem fastlz_read_header_of_memRead (a b : List Nat)
    (h : memRead a 0 HEADER_SIZE = memRead b 0 HEADER_SIZE) :
    fastlz_read_header a = fastlz_read_header b := by
  apply fastlz_read_header_congr
  intro i hi
  have ha := memRead_getD a 0 HEADER_SIZE i
  have hb := memRead_getD b 0 HEADER_SIZE i
  rw [if_pos (by unfold HEADER_SIZE; omega)] at ha hb
  rw [Nat.zero_add] at ha hb
  rw [← ha, ← hb, h]

theorem wireOf_nil (bs : Nat) : wireOf bs [] = [] := rfl

theorem wireOf_cons (bs : Nat) (f : Frame) (fs : List Frame) :
    wireOf bs (f :: fs) = Frame.wireBytes bs f ++ wireOf bs fs := by
  simp [wireOf]

theorem wireBytes_length (bs : Nat) (f : Frame) :
    (Frame.wireBytes bs f).length = HEADER_SIZE + f.payload.length := by
  simp [Frame.wireBytes, hdrBytes_length]
  rfl

theorem read_header_wire (bs : Nat) (f : Frame) (r : List Nat)
    (ht : f.btype < 256) (hc : f.payload.length < 4294967296)
    (ho : f.decoded.length < 4294967296) :
    fastlz_read_header (Frame.wireBytes bs f ++ r) =
      { btype := f.btype, block_size := f.decoded.length,
        compressed := f.payload.length, original := f.decoded.length } := by
  rw [Frame.wireBytes, Frame.hdrBytes, List.append_assoc]
  exact fastlz_read_header_append _ _ _ _ _ ht hc ho

/-- For a nonempty piece, the bytes emitted under `Z_NO_FLUSH` are exactly the
wire bytes of the piece frame. -/
theorem cblock_eq_wire (F : FastLZ) (lv bs : Nat) (p : List Nat) (hp : p ≠ []) :
    cblock F lv bs p = Frame.wireBytes bs (pieceFrame F lv p) := by
  have hlen : p.length > 0 := List.length_pos.mpr hp
  unfold cblock fastlz_compress_hdr pieceFrame Frame.wireBytes Frame.hdrBytes
  by_cases hbig : p.length > MIN_BLOCK_SIZE
  · simp [hlen, hbig, Z_NO_FLUSH, Z_FINISH]
  · simp [hlen, hbig, Z_NO_FLUSH, Z_FINISH]

/-- For a nonempty piece, the bytes emitted under `Z_FINISH` are the wire bytes
of the piece frame followed by the EOF marker. -/
theorem compress_hdr_finish (F : FastLZ) (lv bs : Nat) (p : List Nat) (hp : p ≠ []) :
    fastlz_compress_hdr F p bs lv Z_FINISH =
      Frame.wireBytes bs (pieceFrame F lv p) ++ Frame.wireBytes bs eofFrame := by
  have hlen : p.length > 0 := List.length_pos.mpr hp
  unfold fastlz_compress_hdr pieceFrame Frame.wireBytes Frame.hdrBytes eofFrame
  by_cases hbig : p.length > MIN_BLOCK_SIZE
  · simp [hlen, hbig]
  · simp [hlen, hbig]

/-- A piece the encoder frames is a frame the decoder accepts, given the
size-contract of the external primitives. -/
theorem pieceFrame_valid (F : FastLZ) (lv bs : Nat) (p : List Nat)
    (hbound : ∀ n x, (F.compress n x).length ≤ x.length + x.length / 10)
    (hinv : ∀ n x, F.decompress (F.compress n x) x.length = x)
    (hp : p ≠ []) (hple : p.length ≤ bs) (hbs : bs ≤ 1048576) :
    Frame.Valid F bs (pieceFrame F lv p) := by
  have hmono : p.length + p.length / 10 ≤ bs + bs / 10 :=
    Nat.add_le_add hple (Nat.div_le_div_right hple)
  unfold pieceFrame Frame.Valid
  by_cases hbig : p.length > MIN_BLOCK_SIZE
  · rw [if_pos hbig]
    refine ⟨hp, hple, ?_, ?_, ?_, Or.inr ⟨rfl, hinv lv p⟩⟩
    · show (F.compress lv p).length ≤ bufferBlockSize bs
      exact le_trans (hbound lv p) (by unfold bufferBlockSize HEADER_SIZE; omega)
    · show (F.compress lv p).length < 4294967296
      exact lt_of_le_of_lt (hbound lv p) (by omega)
    · show p.length < 4294967296
      omega
  · rw [if_neg hbig]
    refine ⟨hp, hple, ?_, ?_, ?_, Or.inl ⟨rfl, rfl⟩⟩
    · show p.length ≤ bufferBlockSize bs
      exact le_trans hple (by unfold bufferBlockSize HEADER_SIZE; omega)
    · show p.length < 4294967296
      omega
    · show p.length < 4294967296
      omega

theorem framesOk_append (F : FastLZ) (bs : Nat) (l₁ l₂ : List Frame)
    (h1 : ∀ f ∈ l₁, Frame.Valid F bs f) (h2 : FramesOk F bs l₂) :
    FramesOk F bs (l₁ ++ l₂) := by
  induction l₁ with
  | nil => simpa using h2
  | cons f fs ih =>
    exact Or.inl ⟨h1 f (by simp), ih (fun g hg => h1 g (by simp [hg]))⟩

/-! ### C1 : per-stage scenario lemmas -/

theorem headerDec_stage_short (s : ZStream)
    (hlt : s.state.inHdrOffs < HEADER_SIZE)
    (hne : s.next_in ≠ [])
    (hshort : s.state.inHdrOffs + s.next_in.length < HEADER_SIZE) :
    processHeaderDecompress true s = .error (ZRet.ok,
      inSeek { s with state := { s.state with
          inHdr := listWrite s.state.inHdr s.state.inHdrOffs s.next_in,
          inHdrOffs := s.state.inHdrOffs + s.next_in.length } } s.next_in.length) := by
  have hlen : 0 < s.next_in.length := List.length_pos.mpr hne
  have hmin : min (HEADER_SIZE - s.state.inHdrOffs) s.avail_in = s.next_in.length := by
    simp only [ZStream.avail_in]
    omega
  have hstage : processHeaderStage true s = some
      (inSeek { s with state := { s.state with
          inHdr := listWrite s.state.inHdr s.state.inHdrOffs s.next_in,
          inHdrOffs := s.state.inHdrOffs + s.next_in.length } } s.next_in.length) := by
    unfold processHeaderStage
    rw [if_pos (Or.inr (by simp only [ZStream.avail_in]; omega))]
    rw [if_neg (by simp)]
    simp only [hmin, List.take_length]
    rw [if_neg (by omega)]
  unfold processHeaderDecompress
  rw [hstage]
  simp only []
  unfold processHeaderParse
  rw [if_neg (by simp only [inSeek]; rintro ⟨h1, -⟩; omega)]
  rw [if_neg (by simp only [inSeek]; omega)]

theorem headerDec_stage_complete (s : ZStream)
    (hpos : 0 < s.state.inHdrOffs) (hlt : s.state.inHdrOffs < HEADER_SIZE)
    (hlong : HEADER_SIZE - s.state.inHdrOffs ≤ s.next_in.length) :
    processHeaderDecompress true s = .ok
      ((fastlz_read_header (listWrite s.state.inHdr s.state.inHdrOffs
          (s.next_in.take (HEADER_SIZE - s.state.inHdrOffs)))).block_size,
        { s with
          next_in := s.next_in.drop (HEADER_SIZE - s.state.inHdrOffs)
          total_in := s.total_in + (HEADER_SIZE - s.state.inHdrOffs)
          state := { s.state with
            inHdr := listWrite s.state.inHdr s.state.inHdrOffs
              (s.next_in.take (HEADER_SIZE - s.state.inHdrOffs))
            inHdrOffs := 0
            block_type := (fastlz_read_header (listWrite s.state.inHdr s.state.inHdrOffs
              (s.next_in.take (HEADER_SIZE - s.state.inHdrOffs)))).btype
            str_size := (fastlz_read_header (listWrite s.state.inHdr s.state.inHdrOffs
              (s.next_in.take (HEADER_SIZE - s.state.inHdrOffs)))).compressed
            dec_size := (fastlz_read_header (listWrite s.state.inHdr s.state.inHdrOffs
              (s.next_in.take (HEADER_SIZE - s.state.inHdrOffs)))).original } }) := by
  have hmin : min (HEADER_SIZE - s.state.inHdrOffs) s.avail_in =
      HEADER_SIZE - s.state.inHdrOffs := by
    simp only [ZStream.avail_in]
    omega
  have hstage : processHeaderStage true s = some
      (inSeek { s with state := { s.state with
          inHdr := listWrite s.state.inHdr s.state.inHdrOffs
            (s.next_in.take (HEADER_SIZE - s.state.inHdrOffs))
          inHdrOffs := s.state.inHdrOffs + (HEADER_SIZE - s.state.inHdrOffs) } }
        (HEADER_SIZE - s.state.inHdrOffs)) := by
    unfold processHeaderStage
    rw [if_pos (Or.inl (by omega))]
    rw [if_neg (by rintro ⟨h1, -⟩; omega)]
    simp only [hmin]
    rw [if_neg (by omega)]
  unfold processHeaderDecompress
  rw [hstage]
  simp only []
  unfold processHeaderParse
  rw [if_neg (by simp only [inSeek]; rintro ⟨h1, -⟩; omega)]
  rw [if_pos (by simp only [inSeek]; omega)]
  simp only [inSeek]

theorem headerDec_fast (s : ZStream)
    (hoffs : s.state.inHdrOffs = 0) (hlong : HEADER_SIZE ≤ s.next_in.length) :
    processHeaderDecompress true s = .ok
      ((fastlz_read_header s.next_in).block_size,
        { s with
          next_in := s.next_in.drop HEADER_SIZE
          total_in := s.total_in + HEADER_SIZE
          state := { s.state with
            block_type := (fastlz_read_header s.next_in).btype
            str_size := (fastlz_read_header s.next_in).compressed
            dec_size := (fastlz_read_header s.next_in).original } }) := by
  have hstage : processHeaderStage true s = some s := by
    unfold processHeaderStage
    rw [if_neg (by simp only [ZStream.avail_in]; omega)]
  unfold processHeaderDecompress
  rw [hstage]
  simp only []
  unfold processHeaderParse
  rw [if_pos ⟨hoffs, by simp only [ZStream.avail_in]; omega⟩]
  rw [if_neg (by simp), if_neg (by simp)]
  simp only [inSeek]

theorem checks_eof (bsl : Nat) (s2 : ZStream)
    (hbt : s2.state.block_type = BLOCK_TYPE_COMPRESSED)
    (hstr : s2.state.str_size = 0) (hdec : s2.state.dec_size = 0)
    (hbsl : bsl ≤ s2.state.block_size) :
    processChecks bsl s2 = .error (ZRet.streamEnd, s2) := by
  have h1 : ¬ s2.state.block_type = BLOCK_TYPE_BAD_MAGIC := by
    rw [hbt]
    decide
  have h2 : ¬ (s2.state.block_type ≠ BLOCK_TYPE_RAW ∧
      s2.state.block_type ≠ BLOCK_TYPE_COMPRESSED) := by
    rintro ⟨-, hb⟩
    exact hb hbt
  have h3 : ¬ bsl > s2.state.block_size := by omega
  have h4 : ¬ s2.state.dec_size > bufferBlockSize s2.state.block_size := by
    rw [hdec]
    omega
  have h5 : ¬ s2.state.str_size > bufferBlockSize s2.state.block_size := by
    rw [hstr]
    omega
  unfold processChecks
  rw [if_neg h1, if_neg h2, if_neg h3, if_neg h4, if_neg h5, if_pos ⟨hstr, hdec⟩]

theorem checks_data_direct (bsl : Nat) (s2 : ZStream)
    (hbt : s2.state.block_type = BLOCK_TYPE_RAW ∨
      s2.state.block_type = BLOCK_TYPE_COMPRESSED)
    (hbsl : bsl ≤ s2.state.block_size)
    (hdec : s2.state.dec_size ≤ bufferBlockSize s2.state.block_size)
    (hstr : s2.state.str_size ≤ bufferBlockSize s2.state.block_size)
    (hne0 : ¬ (s2.state.str_size = 0 ∧ s2.state.dec_size = 0))
    (havail : s2.state.str_size ≤ s2.next_in.length) :
    processChecks bsl s2 = .ok (some (s2.next_in.take s2.state.str_size),
      inSeek s2 s2.state.str_size) := by
  have h1 : ¬ s2.state.block_type = BLOCK_TYPE_BAD_MAGIC := by
    rcases hbt with h | h <;> rw [h] <;> decide
  have h2 : ¬ (s2.state.block_type ≠ BLOCK_TYPE_RAW ∧
      s2.state.block_type ≠ BLOCK_TYPE_COMPRESSED) := by
    rcases hbt with h | h
    · rintro ⟨ha, -⟩
      exact ha h
    · rintro ⟨-, hb⟩
      exact hb h
  have h3 : ¬ bsl > s2.state.block_size := by omega
  have h4 : ¬ s2.state.dec_size > bufferBlockSize s2.state.block_size := by omega
  have h5 : ¬ s2.state.str_size > bufferBlockSize s2.state.block_size := by omega
  have h6 := hne0
  have h7 : s2.avail_in ≥ s2.state.str_size := by
    simp only [ZStream.avail_in]
    omega
  unfold processChecks
  rw [if_neg h1, if_neg h2, if_neg h3, if_neg h4, if_neg h5, if_neg h6, if_pos h7]

theorem checks_data_buffer (bsl : Nat) (s2 : ZStream)
    (hbt : s2.state.block_type = BLOCK_TYPE_RAW ∨
      s2.state.block_type = BLOCK_TYPE_COMPRESSED)
    (hbsl : bsl ≤ s2.state.block_size)
    (hdec : s2.state.dec_size ≤ bufferBlockSize s2.state.block_size)
    (hstr : s2.state.str_size ≤ bufferBlockSize s2.state.block_size)
    (hne0 : ¬ (s2.state.str_size = 0 ∧ s2.state.dec_size = 0))
    (havail : s2.next_in.length < s2.state.str_size) :
    processChecks bsl s2 =
      .ok (none, { s2 with state := { s2.state with inBuffOffs := 0 } }) := by
  have h1 : ¬ s2.state.block_type = BLOCK_TYPE_BAD_MAGIC := by
    rcases hbt with h | h <;> rw [h] <;> decide
  have h2 : ¬ (s2.state.block_type ≠ BLOCK_TYPE_RAW ∧
      s2.state.block_type ≠ BLOCK_TYPE_COMPRESSED) := by
    rcases hbt with h | h
    · rintro ⟨ha, -⟩
      exact ha h
    · rintro ⟨-, hb⟩
      exact hb h
  have h3 : ¬ bsl > s2.state.block_size := by omega
  have h4 : ¬ s2.state.dec_size > bufferBlockSize s2.state.block_size := by omega
  have h5 : ¬ s2.state.str_size > bufferBlockSize s2.state.block_size := by omega
  have h6 := hne0
  have h7 : ¬ s2.avail_in ≥ s2.state.str_size := by
    simp only [ZStream.avail_in]
    omega
  unfold processChecks
  rw [if_neg h1, if_neg h2, if_neg h3, if_neg h4, if_neg h5, if_neg h6, if_neg h7]

theorem pay_some (flush : Int) (l : List Nat) (s : ZStream) :
    processPayload flush (some l) s = (some l, s) := rfl

theorem pay_stage_empty (flush : Int) (s : ZStream)
    (hm : s.state.inBuffOffs < s.state.str_size)
    (hwin : s.next_in = [])
    (hnf : flush = Z_NO_FLUSH) :
    processPayload flush none s = (none, s) := by
  have hz : ¬ ((0:Nat) > 0) := by omega
  have hne2 : ¬ (s.state.inBuffOffs = s.state.str_size) := by omega
  have hf : ¬ (flush ≠ Z_NO_FLUSH) := fun h => h hnf
  unfold processPayload
  simp only [ZStream.avail_in, hwin, List.length_nil, Nat.min_zero]
  rw [if_pos hm, if_neg hz, if_neg hne2, if_neg hf]

theorem pay_stage_incomplete (flush : Int) (s : ZStream)
    (hm : s.state.inBuffOffs < s.state.str_size)
    (hne : s.next_in ≠ [])
    (hlt : s.state.inBuffOffs + s.next_in.length < s.state.str_size)
    (hnf : flush = Z_NO_FLUSH) :
    processPayload flush none s = (none,
      inSeek { s with state := { s.state with
          inBuff := listWrite s.state.inBuff s.state.inBuffOffs s.next_in
          inBuffOffs := s.state.inBuffOffs + s.next_in.length } } s.next_in.length) := by
  have hlen : 0 < s.next_in.length := List.length_pos.mpr hne
  have hmin : min (s.state.str_size - s.state.inBuffOffs) s.next_in.length =
      s.next_in.length := by omega
  have hpos : s.next_in.length > 0 := hlen
  have hne2 : ¬ (s.state.inBuffOffs + s.next_in.length = s.state.str_size) := by omega
  have hf : ¬ (flush ≠ Z_NO_FLUSH) := fun h => h hnf
  unfold processPayload
  simp only [ZStream.avail_in, hmin, List.take_length]
  rw [if_pos hm, if_pos hpos]
  simp only [inSeek]
  rw [if_neg hne2, if_neg hf]

theorem pay_stage_complete (flush : Int) (s : ZStream)
    (hm : s.state.inBuffOffs < s.state.str_size)
    (hge : s.state.str_size - s.state.inBuffOffs ≤ s.next_in.length) :
    processPayload flush none s =
      (some (memRead (listWrite s.state.inBuff s.state.inBuffOffs
          (s.next_in.take (s.state.str_size - s.state.inBuffOffs))) 0 s.state.str_size),
        inSeek { s with state := { s.state with
            inBuff := listWrite s.state.inBuff s.state.inBuffOffs
              (s.next_in.take (s.state.str_size - s.state.inBuffOffs))
            inBuffOffs := s.state.inBuffOffs +
              (s.state.str_size - s.state.inBuffOffs) } }
          (s.state.str_size - s.state.inBuffOffs)) := by
  have hmin : min (s.state.str_size - s.state.inBuffOffs) s.next_in.length =
      s.state.str_size - s.state.inBuffOffs := by omega
  have hpos : s.state.str_size - s.state.inBuffOffs > 0 := by omega
  have heq : s.state.inBuffOffs + (s.state.str_size - s.state.inBuffOffs) =
      s.state.str_size := by omega
  unfold processPayload
  simp only [ZStream.avail_in, hmin]
  rw [if_pos hm, if_pos hpos]
  simp only [inSeek]
  rw [if_pos heq]

theorem pay_finish_truncate (flush : Int) (s : ZStream)
    (hm : s.state.inBuffOffs < s.state.str_size)
    (hwin : s.next_in = [])
    (hfl : flush ≠ Z_NO_FLUSH) :
    processPayload flush none s =
      (some (memRead s.state.inBuff 0 s.state.inBuffOffs),
        { s with state := { s.state with str_size := s.state.inBuffOffs } }) := by
  have hz : ¬ ((0:Nat) > 0) := by omega
  have hne2 : ¬ (s.state.inBuffOffs = s.state.str_size) := by omega
  unfold processPayload
  simp only [ZStream.avail_in, hwin, List.length_nil, Nat.min_zero]
  rw [if_pos hm, if_neg hz, if_neg hne2, if_pos hfl, hwin]

theorem tr_dec_raw (F : FastLZ) (flush : Int) (l : List Nat) (s : ZStream)
    (hlvl : s.state.level = ZFAST_LEVEL_DECOMPRESS)
    (hbt : s.state.block_type = BLOCK_TYPE_RAW)
    (hds : s.state.dec_size = s.state.str_size)
    (hout : s.state.dec_size ≤ s.avail_out) :
    processTransform F flush l s = .ok (outWrite
      { s with state := { s.state with outBuffOffs := s.state.dec_size, str_size := 0 } }
      (memRead l 0 s.state.str_size)) := by
  have h1 : ¬ s.state.block_type = BLOCK_TYPE_COMPRESSED := by
    rw [hbt]
    decide
  have h3 : s.state.dec_size ≥ s.state.str_size := by omega
  have h4 : s.avail_out ≥ s.state.dec_size := hout
  have h5 : ¬ (s.state.str_size ≠ s.state.dec_size) := fun h => h hds.symm
  unfold processTransform
  simp only []
  rw [if_pos hlvl, if_neg h1, if_pos hbt, if_pos h3, if_pos h4]
  simp only []
  rw [if_neg h5]
  rw [hds, memRead_memRead_self]

theorem tr_dec_comp (F : FastLZ) (flush : Int) (l : List Nat) (s : ZStream)
    (hlvl : s.state.level = ZFAST_LEVEL_DECOMPRESS)
    (hbt : s.state.block_type = BLOCK_TYPE_COMPRESSED)
    (hlen : (F.decompress (memRead l 0 s.state.str_size) s.state.dec_size).length =
      s.state.dec_size)
    (hout : s.state.dec_size ≤ s.avail_out) :
    processTransform F flush l s = .ok (outWrite
      { s with state := { s.state with outBuffOffs := s.state.dec_size, str_size := 0 } }
      (F.decompress (memRead l 0 s.state.str_size) s.state.dec_size)) := by
  have h4 : s.avail_out ≥ s.state.dec_size := hout
  have h5 : ¬ ((F.decompress (memRead l 0 s.state.str_size) s.state.dec_size).length ≠
      s.state.dec_size) := fun h => h hlen
  unfold processTransform
  simp only []
  rw [if_pos hlvl, if_pos hbt, if_pos h4]
  simp only []
  rw [if_neg h5]
  rw [memRead_of_length _ _ hlen]

theorem tr_comp (F : FastLZ) (flush : Int) (l : List Nat) (s : ZStream)
    (hlvl : ¬ s.state.level = ZFAST_LEVEL_DECOMPRESS)
    (hout : s.state.str_size + s.state.str_size / 10 + 66 ≤ s.avail_out) :
    processTransform F flush l s = .ok (outWrite
      { s with state := { s.state with outBuffOffs := s.state.dec_size, str_size := 0 } }
      (fastlz_compress_hdr F (memRead l 0 s.state.str_size) s.state.block_size
        (zlibLevelToFastlz s.state.level)
        (if flush = Z_FINISH ∧ s.avail_in ≠ 0 then Z_NO_FLUSH else flush))) := by
  have h4 : s.avail_out ≥ s.state.str_size + s.state.str_size / 10 + 66 := hout
  unfold processTransform
  simp only []
  rw [if_neg hlvl, if_pos h4]

theorem end_no_flush (s : ZStream) : processEnd Z_NO_FLUSH s = (ZRet.ok, s) := by
  have h : ¬ ((Z_NO_FLUSH : Int) = Z_FINISH ∧ s.avail_in = 0 ∧
      ¬ s.state.outBuffOffs < s.state.dec_size) := by
    rintro ⟨h1, -⟩
    exact absurd h1 (by decide)
  unfold processEnd
  rw [if_neg h]

theorem end_finish (s : ZStream)
    (hwin : s.next_in = [])
    (hdrain : ¬ s.state.outBuffOffs < s.state.dec_size) :
    processEnd Z_FINISH s = (ZRet.streamEnd, s) := by
  have h : (Z_FINISH : Int) = Z_FINISH ∧ s.avail_in = 0 ∧
      ¬ s.state.outBuffOffs < s.state.dec_size :=
    ⟨rfl, by simp [ZStream.avail_in, hwin], hdrain⟩
  unfold processEnd
  rw [if_pos h]

/-! ### C1 : the decoder simulation invariant -/

/-- The decoder's between-calls invariant: the stream state faithfully mirrors
the decoding position `pos` in a well-formed frame sequence. -/
def DecInv (F : FastLZ) (bs : Nat) (pos : DPos) (s : ZStream) : Prop :=
  s.state.level = ZFAST_LEVEL_DECOMPRESS ∧
  s.state.block_size = bs ∧
  s.state.outBuffOffs = s.state.dec_size ∧
  match pos with
  | .atHeader fs h =>
      FramesOk F bs fs ∧ h < HEADER_SIZE ∧ s.state.str_size = 0 ∧
      s.state.inHdrOffs = h ∧
      memRead s.state.inHdr 0 h = (wireOf bs fs).take h
  | .inPayload f fs m =>
      Frame.Valid F bs f ∧ FramesOk F bs fs ∧
      s.state.block_type = f.btype ∧
      s.state.str_size = f.payload.length ∧
      s.state.dec_size = f.decoded.length ∧
      s.state.inHdrOffs = 0 ∧
      s.state.inBuffOffs = m ∧ m < f.payload.length ∧
      memRead s.state.inBuff 0 m = f.payload.take m

/-- The encoder's between-calls invariant: `staged` is the partial block
accumulated in `inBuff` (empty when the encoder is between blocks). -/
def EncInv (bs : Nat) (lv : Int) (staged : List Nat) (s : ZStream) : Prop :=
  s.state.level = lv ∧ s.state.block_size = bs ∧
  s.state.dec_size = 0 ∧ s.state.outBuffOffs = 0 ∧
  ((staged = [] ∧ s.state.str_size = 0) ∨
   (staged ≠ [] ∧ s.state.str_size = bs ∧ s.state.inBuffOffs = staged.length ∧
     staged.length < bs ∧ memRead s.state.inBuff 0 staged.length = staged))

theorem wire_drop_header (bs : Nat) (f : Frame) (r : List Nat) :
    (Frame.wireBytes bs f ++ r).drop HEADER_SIZE = f.payload ++ r := by
  rw [Frame.wireBytes, List.append_assoc]
  exact List.drop_left' (hdrBytes_length bs f)

/-! ### C1 : one decoder call, from a parsed header to the call's result -/

set_option maxHeartbeats 1000000 in
theorem dec_block (F : FastLZ) (bs : Nat) (hbsBig : bs ≤ 1048576)
    (f : Frame) (fs : List Frame) (s s1 : ZStream) (t : List Nat) (bsl j0 : Nat)
    (hok : FramesOk F bs (f :: fs))
    (hdrain : ¬ s.state.outBuffOffs < s.state.dec_size)
    (hstr0 : s.state.str_size = 0)
    (hlvls : s.state.level = ZFAST_LEVEL_DECOMPRESS)
    (hhdr : processHeaderDecompress true s = .ok (bsl, s1))
    (hbsl : bsl = f.decoded.length)
    (hlvl : s1.state.level = ZFAST_LEVEL_DECOMPRESS)
    (hbsz : s1.state.block_size = bs)
    (hbt : s1.state.block_type = f.btype)
    (hstr : s1.state.str_size = f.payload.length)
    (hdec : s1.state.dec_size = f.decoded.length)
    (hhofs : s1.state.inHdrOffs = 0)
    (hout : s1.avail_out = BIG_OUT)
    (hwr : s1.written = s.written)
    (hj0 : s1.next_in = s.next_in.drop j0)
    (hj0le : j0 ≤ s.next_in.length)
    (hwin1 : s1.next_in ++ t = f.payload ++ wireOf bs fs) :
    ∃ (pos' : DPos) (k : Nat),
      j0 ≤ k ∧ k ≤ s.next_in.length ∧
      (fastlzlibProcess F s Z_NO_FLUSH true).2.next_in = s.next_in.drop k ∧
      DecInv F bs pos' (fastlzlibProcess F s Z_NO_FLUSH true).2 ∧
      (fastlzlibProcess F s Z_NO_FLUSH true).2.next_in ++ t = DPos.rest bs pos' ∧
      (fastlzlibProcess F s Z_NO_FLUSH true).2.written ++ DPos.decRest pos' =
        s.written ++ DPos.decRest (DPos.atHeader (f :: fs) 0) := by
  have hifhdr : (if s.state.level = ZFAST_LEVEL_DECOMPRESS then processHeaderDecompress true s
      else processHeaderCompress Z_NO_FLUSH true s) = .ok (bsl, s1) := by
    rw [if_pos hlvls]
    exact hhdr
  have hBO : BIG_OUT = 1073741824 := rfl
  have hlen1 : s1.next_in.length = s.next_in.length - j0 := by
    rw [hj0, List.length_drop]
  rcases hok with ⟨hval, hoks⟩ | ⟨heof, hnil⟩
  · -- a valid data frame
    obtain ⟨hdne, hdle, hpbb, hp32, hd32, hkind⟩ := id hval
    have hdpos : f.decoded.length ≠ 0 := fun h => hdne (List.eq_nil_of_length_eq_zero h)
    have hbtor : s1.state.block_type = BLOCK_TYPE_RAW ∨
        s1.state.block_type = BLOCK_TYPE_COMPRESSED := by
      rcases hkind with ⟨h, -⟩ | ⟨h, -⟩
      · exact Or.inl (hbt.trans h)
      · exact Or.inr (hbt.trans h)
    have hdbb : f.decoded.length ≤ bufferBlockSize bs := by
      unfold bufferBlockSize HEADER_SIZE
      omega
    by_cases hav : f.payload.length ≤ s1.next_in.length
    · -- the whole payload is in the caller window: direct grab and transform
      have hchk := checks_data_direct bsl
        { s1 with state := { s1.state with outBuffOffs := s1.state.dec_size } }
        (by simpa using hbtor) (by simpa [hbsz, hbsl] using hdle)
        (by simpa [hbsz, hdec] using hdbb)
        (by simpa [hbsz, hstr] using hpbb)
        (by intro hc; exact hdpos (by simpa [hdec] using hc.2))
        (by simpa [hstr] using hav)
      have hacq : processAcquire Z_NO_FLUSH true s = .ok
          (some (s1.next_in.take f.payload.length),
            inSeek { s1 with state := { s1.state with outBuffOffs := s1.state.dec_size } }
              f.payload.length) := by
        rw [processAcquire_ok Z_NO_FLUSH true s bsl s1 hstr0 hifhdr, hchk]
        simp [hstr]
      have hl : s1.next_in.take f.payload.length = f.payload := by
        have h1 := congrArg (List.take f.payload.length) hwin1
        rwa [List.take_append_of_le_length hav, List.take_left' rfl] at h1
      set s3 : ZStream :=
        inSeek { s1 with state := { s1.state with outBuffOffs := s1.state.dec_size } }
          f.payload.length with hs3
      have hs3f : s3.state.level = ZFAST_LEVEL_DECOMPRESS ∧
          s3.state.block_type = f.btype ∧ s3.state.str_size = f.payload.length ∧
          s3.state.dec_size = f.decoded.length ∧ s3.avail_out = BIG_OUT ∧
          s3.state.block_size = bs ∧ s3.state.inHdrOffs = 0 ∧
          s3.state.inHdr = s1.state.inHdr ∧
          s3.state.outBuffOffs = f.decoded.length ∧
          s3.written = s.written ∧ s3.next_in = s1.next_in.drop f.payload.length := by
        refine ⟨hlvl, hbt, hstr, hdec, hout, hbsz, hhofs, rfl, hdec, hwr, rfl⟩
      obtain ⟨h3lvl, h3bt, h3str, h3dec, h3out, h3bsz, h3hofs, h3hdr, h3obo, h3wr, h3next⟩ := hs3f
      have hmem : memRead (s1.next_in.take f.payload.length) 0 s3.state.str_size =
          f.payload := by
        rw [hl, h3str]
        exact memRead_of_length _ _ rfl
      have htrres : ∃ s4 : ZStream,
          processTransform F Z_NO_FLUSH (s1.next_in.take f.payload.length) s3 = .ok s4 ∧
          s4.written = s.written ++ f.decoded ∧
          s4.next_in = s1.next_in.drop f.payload.length ∧
          s4.state.level = ZFAST_LEVEL_DECOMPRESS ∧ s4.state.block_size = bs ∧
          s4.state.str_size = 0 ∧ s4.state.inHdrOffs = 0 ∧
          s4.state.outBuffOffs = s4.state.dec_size := by
        rcases hkind with ⟨hbtv, hpd⟩ | ⟨hbtv, hpd⟩
        · -- RAW block
          have hds : s3.state.dec_size = s3.state.str_size := by
            rw [h3dec, h3str, ← hpd]
          refine ⟨_, tr_dec_raw F Z_NO_FLUSH _ s3 h3lvl (h3bt.trans hbtv) hds
            (by rw [h3out, h3dec, hBO]; omega), ?_, ?_, ?_, ?_, ?_, ?_, ?_⟩
          · simp only [outWrite]
            rw [hmem, h3wr, hpd]
          · simp [outWrite, h3next]
          · simpa [outWrite] using h3lvl
          · simpa [outWrite] using h3bsz
          · simp [outWrite]
          · simpa [outWrite] using h3hofs
          · simp [outWrite]
        · -- COMPRESSED block
          have hlen : (F.decompress (memRead (s1.next_in.take f.payload.length) 0
              s3.state.str_size) s3.state.dec_size).length = s3.state.dec_size := by
            rw [hmem, h3dec, hpd]
          refine ⟨_, tr_dec_comp F Z_NO_FLUSH _ s3 h3lvl (h3bt.trans hbtv) hlen
            (by rw [h3out, h3dec, hBO]; omega), ?_, ?_, ?_, ?_, ?_, ?_, ?_⟩
          · simp only [outWrite]
            rw [hmem, h3dec, hpd, h3wr]
          · simp [outWrite, h3next]
          · simpa [outWrite] using h3lvl
          · simpa [outWrite] using h3bsz
          · simp [outWrite]
          · simpa [outWrite] using h3hofs
          · simp [outWrite]
      obtain ⟨s4, htr, h4wr, h4next, h4lvl, h4bsz, h4str, h4hofs, h4obo⟩ := htrres
      have hrun := process_run_some F Z_NO_FLUSH true s _ _ _ _ s4 hdrain hacq
        (pay_some _ _ _) htr
      rw [hrun, end_no_flush]
      refine ⟨DPos.atHeader fs 0, j0 + f.payload.length, by omega, ?_, ?_, ?_, ?_, ?_⟩
      · omega
      · rw [h4next, hj0, List.drop_drop]
      · refine ⟨h4lvl, h4bsz, h4obo, hoks, by unfold HEADER_SIZE; omega, h4str, h4hofs, ?_⟩
        simp [memRead]
      · rw [h4next]
        have h1 := congrArg (List.drop f.payload.length) hwin1
        rw [List.drop_append_of_le_length hav, List.drop_left' rfl] at h1
        rw [DPos.rest, List.drop_zero]
        exact h1
      · rw [h4wr, DPos.decRest, DPos.decRest]
        simp
    · -- only part of the payload is available: it is staged into inBuff
      push_neg at hav
      have hppos : 0 < f.payload.length := lt_of_le_of_lt (Nat.zero_le _) hav
      set sB : ZStream :=
        { s1 with state := { s1.state with outBuffOffs := s1.state.dec_size } } with hsB
      set s2b : ZStream :=
        { sB with state := { sB.state with inBuffOffs := 0 } } with hs2b
      have hchk := checks_data_buffer bsl sB
        (by simpa [hsB] using hbtor) (by simp only [hsB]; simpa [hbsz, hbsl] using hdle)
        (by simp only [hsB]; simpa [hbsz, hdec] using hdbb)
        (by simp only [hsB]; simpa [hbsz, hstr] using hpbb)
        (by simp only [hsB]; intro hc; exact hdpos (by simpa [hdec] using hc.2))
        (by simp only [hsB]; simpa [hstr] using hav)
      have hacq : processAcquire Z_NO_FLUSH true s = .ok (none, s2b) := by
        rw [processAcquire_ok Z_NO_FLUSH true s bsl s1 hstr0 hifhdr, hs2b]
        exact hchk
      have hstaged : s1.next_in = f.payload.take s1.next_in.length := by
        have h1 := congrArg (List.take s1.next_in.length) hwin1
        rwa [List.take_append_of_le_length (le_refl _), List.take_length,
          List.take_append_of_le_length (le_of_lt hav)] at h1
      have htrest : t = f.payload.drop s1.next_in.length ++ wireOf bs fs := by
        have h1 := congrArg (List.drop s1.next_in.length) hwin1
        rwa [List.drop_left' rfl, List.drop_append_of_le_length (le_of_lt hav)] at h1
      have hpayres : ∃ s5 : ZStream,
          processPayload Z_NO_FLUSH none s2b = (none, s5) ∧
          s5.written = s.written ∧ s5.next_in = [] ∧
          s5.state.level = ZFAST_LEVEL_DECOMPRESS ∧ s5.state.block_size = bs ∧
          s5.state.block_type = f.btype ∧ s5.state.str_size = f.payload.length ∧
          s5.state.dec_size = f.decoded.length ∧ s5.state.inHdrOffs = 0 ∧
          s5.state.inBuffOffs = s1.next_in.length ∧
          s5.state.outBuffOffs = s5.state.dec_size ∧
          memRead s5.state.inBuff 0 s1.next_in.length = f.payload.take s1.next_in.length := by
        by_cases hne : s1.next_in = []
        · refine ⟨s2b, pay_stage_empty _ _ (by simp [hs2b, hsB, hstr]; omega)
            (by simp [hs2b, hsB, hne]) rfl,
            (by simp [hs2b, hsB, hwr]), (by simp [hs2b, hsB, hne]),
            (by simp [hs2b, hsB, hlvl]), (by simp [hs2b, hsB, hbsz]),
            (by simp [hs2b, hsB, hbt]), (by simp [hs2b, hsB, hstr]),
            (by simp [hs2b, hsB, hdec]), (by simp [hs2b, hsB, hhofs]),
            (by simp [hs2b, hsB, hne]), (by simp [hs2b, hsB]), ?_⟩
          rw [hne]
          simp [hs2b, hsB, memRead]
        · have hpay := pay_stage_incomplete Z_NO_FLUSH s2b
            (by simp [hs2b, hsB, hstr]; omega) (by simpa [hs2b, hsB] using hne)
            (by simp [hs2b, hsB, hstr]; omega) rfl
          refine ⟨_, hpay, (by simp [hs2b, hsB, inSeek, hwr]), (by simp [hs2b, hsB, inSeek]),
            (by simp [hs2b, hsB, inSeek, hlvl]), (by simp [hs2b, hsB, inSeek, hbsz]),
            (by simp [hs2b, hsB, inSeek, hbt]), (by simp [hs2b, hsB, inSeek, hstr]),
            (by simp [hs2b, hsB, inSeek, hdec]), (by simp [hs2b, hsB, inSeek, hhofs]),
            (by simp [hs2b, hsB, inSeek]), (by simp [hs2b, hsB, inSeek, hdec]), ?_⟩
          simp only [hs2b, hsB, inSeek]
          have hmw : memRead (listWrite s1.state.inBuff 0 s1.next_in) 0 s1.next_in.length =
              s1.next_in := memRead_listWrite_zero _ _
          rw [hmw, ← hstaged]
      obtain ⟨s5, hpay, h5wr, h5next, h5lvl, h5bsz, h5bt, h5str, h5dec, h5hofs,
        h5ibo, h5obo, h5mem⟩ := hpayres
      have hrun := process_run_none F Z_NO_FLUSH true s _ _ _ hdrain hacq hpay
      rw [hrun, end_no_flush]
      refine ⟨DPos.inPayload f fs s1.next_in.length, s.next_in.length, hj0le, le_refl _,
        ?_, ?_, ?_, ?_⟩
      · rw [h5next, List.drop_length]
      · exact ⟨h5lvl, h5bsz, h5obo, hval, hoks, h5bt, h5str, h5dec, h5hofs, h5ibo, hav, h5mem⟩
      · rw [h5next, DPos.rest]
        simpa using htrest
      · rw [h5wr, DPos.decRest, DPos.decRest]
        simp
  · -- the EOF marker: STREAM_END and nothing consumed
    have hchk := checks_eof bsl
      { s1 with state := { s1.state with outBuffOffs := s1.state.dec_size } }
      (by simp [hbt, heof, eofFrame]) (by simp [hstr, heof, eofFrame])
      (by simp [hdec, heof, eofFrame]) (by simp [hbsl, heof, eofFrame])
    have hacq : processAcquire Z_NO_FLUSH true s = .error (ZRet.streamEnd,
        { s1 with state := { s1.state with outBuffOffs := s1.state.dec_size } }) := by
      rw [processAcquire_ok Z_NO_FLUSH true s bsl s1 hstr0 hifhdr, hchk]
    have hrun := process_run_err F Z_NO_FLUSH true s _ hdrain hacq
    rw [hrun]
    have hwnil : s1.next_in = [] ∧ t = [] := by
      have : s1.next_in ++ t = [] := by
        rw [hwin1, heof, hnil]
        simp [eofFrame, wireOf_nil]
      exact ⟨List.append_eq_nil.mp this |>.1, List.append_eq_nil.mp this |>.2⟩
    refine ⟨DPos.atHeader [] 0, j0, le_refl _, hj0le, ?_, ?_, ?_, ?_⟩
    · simpa [hwnil.1] using hj0
    · refine ⟨hlvl, hbsz, by simp [hdec], trivial, by unfold HEADER_SIZE; omega,
        by simp [hstr, heof, eofFrame], by simp [hhofs], ?_⟩
      simp [memRead, wireOf_nil]
    · simp [hwnil.1, hwnil.2, DPos.rest, wireOf_nil]
    · simp [hwr, DPos.decRest, heof, hnil, eofFrame]

/-! ### C1 : one decoder call advances the simulation -/

set_option maxHeartbeats 2000000 in
theorem dec_step (F : FastLZ) (bs : Nat) (hbsBig : bs ≤ 1048576)
    (pos : DPos) (s : ZStream) (t : List Nat)
    (hinv : DecInv F bs pos s)
    (hout : s.avail_out = BIG_OUT)
    (hrest : s.next_in ++ t = DPos.rest bs pos)
    (hne : s.next_in ≠ []) :
    ∃ (pos' : DPos) (k : Nat),
      1 ≤ k ∧ k ≤ s.next_in.length ∧
      (fastlzlibProcess F s Z_NO_FLUSH true).2.next_in = s.next_in.drop k ∧
      DecInv F bs pos' (fastlzlibProcess F s Z_NO_FLUSH true).2 ∧
      (fastlzlibProcess F s Z_NO_FLUSH true).2.next_in ++ t = DPos.rest bs pos' ∧
      (fastlzlibProcess F s Z_NO_FLUSH true).2.written ++ DPos.decRest pos' =
        s.written ++ DPos.decRest pos := by
  have hBO : BIG_OUT = 1073741824 := rfl
  have hlen0 : 0 < s.next_in.length := List.length_pos.mpr hne
  cases pos with
  | atHeader fs h =>
    obtain ⟨hlvl, hbsz, hobo, hfsok, hhlt, hstr0, hhofs, hhmem⟩ := hinv
    have hdrain : ¬ s.state.outBuffOffs < s.state.dec_size := by omega
    subst hhofs
    rw [DPos.rest] at hrest
    cases fs with
    | nil =>
      exfalso
      rw [wireOf_nil, List.drop_nil] at hrest
      exact hne (List.append_eq_nil.mp hrest).1
    | cons f fs =>
      have hfb : f.btype < 256 ∧ f.payload.length < 4294967296 ∧
          f.decoded.length < 4294967296 := by
        rcases hfsok with ⟨⟨-, -, -, hp32, hd32, hkind⟩, -⟩ | ⟨heof, -⟩
        · refine ⟨?_, hp32, hd32⟩
          rcases hkind with ⟨hb, -⟩ | ⟨hb, -⟩ <;> rw [hb] <;> decide
        · rw [heof]
          refine ⟨by decide, by decide, by decide⟩
      have hw : wireOf bs (f :: fs) = Frame.wireBytes bs f ++ wireOf bs fs :=
        wireOf_cons _ _ _
      have hrh : fastlz_read_header (Frame.wireBytes bs f ++ wireOf bs fs) =
          { btype := f.btype, block_size := f.decoded.length,
            compressed := f.payload.length, original := f.decoded.length } :=
        read_header_wire bs f _ hfb.1 hfb.2.1 hfb.2.2
      have hwlen : HEADER_SIZE + f.payload.length ≤ (wireOf bs (f :: fs)).length := by
        rw [hw, List.length_append, wireBytes_length]
        omega
      by_cases hA : s.state.inHdrOffs = 0 ∧ HEADER_SIZE ≤ s.next_in.length
      · -- fast path: parse the header straight from the window
        obtain ⟨hz, hlong⟩ := hA
        rw [hz, List.drop_zero] at hrest
        have hrhn : fastlz_read_header s.next_in =
            { btype := f.btype, block_size := f.decoded.length,
              compressed := f.payload.length, original := f.decoded.length } := by
          have h1 : fastlz_read_header (s.next_in ++ t) = fastlz_read_header s.next_in :=
            fastlz_read_header_extend _ _ hlong
          rw [← h1, hrest, hw, hrh]
        have hhdr := headerDec_fast s hz hlong
        have hwin1 : (s.next_in.drop HEADER_SIZE) ++ t = f.payload ++ wireOf bs fs := by
          have h1 := congrArg (List.drop HEADER_SIZE) hrest
          rwa [List.drop_append_of_le_length hlong, hw, wire_drop_header] at h1
        obtain ⟨pos', k, hj0k, hkle, hnx, hdi, hrest', hcons⟩ :=
          dec_block F bs hbsBig f fs s _ t _ HEADER_SIZE hfsok hdrain hstr0 hlvl hhdr
            (by rw [hrhn]) (by simpa using hlvl) (by simpa using hbsz)
            (by simp [hrhn]) (by simp [hrhn]) (by simp [hrhn])
            (by simpa using hz) (by simpa using hout) (by simp) (by simp) hlong
            (by simpa using hwin1)
        exact ⟨pos', k, by unfold HEADER_SIZE at hj0k; omega, hkle, hnx, hdi, hrest', hcons⟩
      · by_cases hB : s.state.inHdrOffs + s.next_in.length < HEADER_SIZE
        · -- the window is short: stage it all into inHdr and return OK
          have hhdr := headerDec_stage_short s hhlt hne hB
          have hifhdr : (if s.state.level = ZFAST_LEVEL_DECOMPRESS then
              processHeaderDecompress true s
              else processHeaderCompress Z_NO_FLUSH true s) = .error (ZRet.ok,
              inSeek { s with state := { s.state with
                  inHdr := listWrite s.state.inHdr s.state.inHdrOffs s.next_in,
                  inHdrOffs := s.state.inHdrOffs + s.next_in.length } } s.next_in.length) := by
            rw [if_pos hlvl]
            exact hhdr
          have hacq := processAcquire_err Z_NO_FLUSH true s _ hstr0 hifhdr
          have hrun := process_run_err F Z_NO_FLUSH true s _ hdrain hacq
          rw [hrun]
          have hnext : s.next_in = ((wireOf bs (f :: fs)).drop s.state.inHdrOffs).take
              s.next_in.length := by
            rw [← hrest, List.take_left' rfl]
          have htr : t = (wireOf bs (f :: fs)).drop
              (s.state.inHdrOffs + s.next_in.length) := by
            have h1 := congrArg (List.drop s.next_in.length) hrest
            rwa [List.drop_left' rfl, List.drop_drop] at h1
          refine ⟨DPos.atHeader (f :: fs) (s.state.inHdrOffs + s.next_in.length),
            s.next_in.length, hlen0, le_refl _, by simp [inSeek], ?_, ?_, ?_⟩
          · refine ⟨by simpa [inSeek] using hlvl, by simpa [inSeek] using hbsz,
              by simpa [inSeek] using hobo, hfsok, hB, by simpa [inSeek] using hstr0,
              by simp [inSeek], ?_⟩
            simp only [inSeek]
            have h1 := memRead_listWrite s.state.inHdr s.next_in s.state.inHdrOffs
            rw [h1, hhmem, hnext, ← List.take_add]
            congr 1
            rw [List.length_take, List.length_drop]
            unfold HEADER_SIZE at hB hwlen
            omega
          · simp only [inSeek, DPos.rest]
            rw [List.drop_length]
            simpa using htr
          · simp [inSeek, DPos.decRest]
        · -- staging completes the header: parse it from inHdr
          have hpos2 : 0 < s.state.inHdrOffs ∧
              HEADER_SIZE - s.state.inHdrOffs ≤ s.next_in.length := by
            rcases Nat.eq_zero_or_pos s.state.inHdrOffs with h0 | h0
            · exfalso
              have hlt20 : ¬ HEADER_SIZE ≤ s.next_in.length := fun hc => hA ⟨h0, hc⟩
              exact hB (by omega)
            · exact ⟨h0, by omega⟩
          have hhdr := headerDec_stage_complete s hpos2.1 hhlt hpos2.2
          have h20 : s.state.inHdrOffs + (HEADER_SIZE - s.state.inHdrOffs) =
              HEADER_SIZE := by omega
          have hdl : (s.next_in.take (HEADER_SIZE - s.state.inHdrOffs)).length =
              HEADER_SIZE - s.state.inHdrOffs := by
            rw [List.length_take]
            omega
          have htk : s.next_in.take (HEADER_SIZE - s.state.inHdrOffs) =
              ((wireOf bs (f :: fs)).drop s.state.inHdrOffs).take
                (HEADER_SIZE - s.state.inHdrOffs) := by
            rw [← hrest, List.take_append_of_le_length hpos2.2]
          have hmemW : memRead (listWrite s.state.inHdr s.state.inHdrOffs
              (s.next_in.take (HEADER_SIZE - s.state.inHdrOffs))) 0 HEADER_SIZE =
              (wireOf bs (f :: fs)).take HEADER_SIZE := by
            have h1 := memRead_listWrite s.state.inHdr
              (s.next_in.take (HEADER_SIZE - s.state.inHdrOffs)) s.state.inHdrOffs
            rw [hdl, h20] at h1
            rw [h1, hhmem, htk, ← List.take_add, h20]
          have hrdW : fastlz_read_header (listWrite s.state.inHdr s.state.inHdrOffs
              (s.next_in.take (HEADER_SIZE - s.state.inHdrOffs))) =
              { btype := f.btype, block_size := f.decoded.length,
                compressed := f.payload.length, original := f.decoded.length } := by
            have he : memRead (listWrite s.state.inHdr s.state.inHdrOffs
                (s.next_in.take (HEADER_SIZE - s.state.inHdrOffs))) 0 HEADER_SIZE =
                memRead (wireOf bs (f :: fs)) 0 HEADER_SIZE := by
              rw [hmemW, memRead_eq_take _ _ (by omega)]
            rw [fastlz_read_header_of_memRead _ _ he, hw, hrh]
          have hwin1 : (s.next_in.drop (HEADER_SIZE - s.state.inHdrOffs)) ++ t =
              f.payload ++ wireOf bs fs := by
            have h1 := congrArg (List.drop (HEADER_SIZE - s.state.inHdrOffs)) hrest
            rwa [List.drop_append_of_le_length hpos2.2, List.drop_drop, h20, hw,
              wire_drop_header] at h1
          obtain ⟨pos', k, hj0k, hkle, hnx, hdi, hrest', hcons⟩ :=
            dec_block F bs hbsBig f fs s _ t _ (HEADER_SIZE - s.state.inHdrOffs)
              hfsok hdrain hstr0 hlvl hhdr
              (by rw [hrdW]) (by simpa using hlvl) (by simpa using hbsz)
              (by simp [hrdW]) (by simp [hrdW]) (by simp [hrdW])
              (by simp) (by simpa using hout) (by simp) (by simp) hpos2.2
              (by simpa using hwin1)
          refine ⟨pos', k, ?_, hkle, hnx, hdi, hrest', hcons⟩
          unfold HEADER_SIZE at hj0k hhlt
          omega
  | inPayload f fs m =>
    obtain ⟨hlvl, hbsz, hobo, hval, hoks, hbt, hstr, hdec, hhofs, hibo, hmlt, hmem⟩ := hinv
    obtain ⟨hdne, hdle, hpbb, hp32, hd32, hkind⟩ := id hval
    have hdrain : ¬ s.state.outBuffOffs < s.state.dec_size := by omega
    have hacq := processAcquire_pass Z_NO_FLUSH true s (by omega)
    rw [DPos.rest] at hrest
    by_cases hcomp : f.payload.length - m ≤ s.next_in.length
    · -- the staged payload completes: transform the block
      have hpay := pay_stage_complete Z_NO_FLUSH s (by omega) (by omega)
      have hdm : s.state.str_size - s.state.inBuffOffs = f.payload.length - m := by
        rw [hstr, hibo]
      have htkall : s.next_in.take (f.payload.length - m) = f.payload.drop m := by
        have h1 : (s.next_in ++ t).take (f.payload.length - m) =
            s.next_in.take (f.payload.length - m) :=
          List.take_append_of_le_length hcomp
        rw [hrest] at h1
        rw [← h1, List.take_append_of_le_length (by simp),
          List.take_of_length_le (by simp)]
      have hL : memRead (listWrite s.state.inBuff s.state.inBuffOffs
          (s.next_in.take (s.state.str_size - s.state.inBuffOffs))) 0 s.state.str_size =
          f.payload := by
        rw [hdm]
        have h1 := memRead_listWrite s.state.inBuff
          (s.next_in.take (f.payload.length - m)) s.state.inBuffOffs
        rw [List.length_take] at h1
        have hmineq : s.state.inBuffOffs + min (f.payload.length - m) s.next_in.length =
            s.state.str_size := by
          rw [hibo, hstr]
          omega
        rw [hmineq] at h1
        rw [h1, hibo, hmem, htkall, List.take_append_drop]
      set s5 : ZStream := inSeek { s with state := { s.state with
          inBuff := listWrite s.state.inBuff s.state.inBuffOffs
            (s.next_in.take (s.state.str_size - s.state.inBuffOffs))
          inBuffOffs := s.state.inBuffOffs +
            (s.state.str_size - s.state.inBuffOffs) } }
        (s.state.str_size - s.state.inBuffOffs) with hs5
      have h5f : s5.state.level = ZFAST_LEVEL_DECOMPRESS ∧ s5.state.block_type = f.btype ∧
          s5.state.str_size = f.payload.length ∧ s5.state.dec_size = f.decoded.length ∧
          s5.avail_out = BIG_OUT ∧ s5.state.block_size = bs ∧ s5.state.inHdrOffs = 0 ∧
          s5.written = s.written ∧
          s5.next_in = s.next_in.drop (f.payload.length - m) := by
        refine ⟨by simpa [hs5, inSeek] using hlvl, by simpa [hs5, inSeek] using hbt,
          by simpa [hs5, inSeek] using hstr, by simpa [hs5, inSeek] using hdec,
          by simpa [hs5, inSeek] using hout, by simpa [hs5, inSeek] using hbsz,
          by simpa [hs5, inSeek] using hhofs, by simp [hs5, inSeek], ?_⟩
        simp [hs5, inSeek, hdm]
      obtain ⟨h5lvl, h5bt, h5str, h5dec, h5out, h5bsz, h5hofs, h5wr, h5next⟩ := h5f
      have htrres : ∃ s4 : ZStream,
          processTransform F Z_NO_FLUSH (memRead (listWrite s.state.inBuff s.state.inBuffOffs
            (s.next_in.take (s.state.str_size - s.state.inBuffOffs))) 0 s.state.str_size)
            s5 = .ok s4 ∧
          s4.written = s.written ++ f.decoded ∧
          s4.next_in = s.next_in.drop (f.payload.length - m) ∧
          s4.state.level = ZFAST_LEVEL_DECOMPRESS ∧ s4.state.block_size = bs ∧
          s4.state.str_size = 0 ∧ s4.state.inHdrOffs = 0 ∧
          s4.state.outBuffOffs = s4.state.dec_size := by
        have hmm : memRead (memRead (listWrite s.state.inBuff s.state.inBuffOffs
            (s.next_in.take (s.state.str_size - s.state.inBuffOffs))) 0 s.state.str_size) 0
            s5.state.str_size = f.payload := by
          rw [h5str, ← hstr, memRead_memRead_self]
          exact hL
        rcases hkind with ⟨hbtv, hpd⟩ | ⟨hbtv, hpd⟩
        · have hds : s5.state.dec_size = s5.state.str_size := by
            rw [h5dec, h5str, ← hpd]
          refine ⟨_, tr_dec_raw F Z_NO_FLUSH _ s5 h5lvl (h5bt.trans hbtv) hds
            (by rw [h5out, h5dec, hBO]; omega), ?_, ?_, ?_, ?_, ?_, ?_, ?_⟩
          · simp only [outWrite]
            rw [hmm, h5wr, hpd]
          · simp [outWrite, h5next]
          · simpa [outWrite] using h5lvl
          · simpa [outWrite] using h5bsz
          · simp [outWrite]
          · simpa [outWrite] using h5hofs
          · simp [outWrite]
        · have hlen : (F.decompress (memRead (memRead (listWrite s.state.inBuff
              s.state.inBuffOffs (s.next_in.take (s.state.str_size - s.state.inBuffOffs)))
              0 s.state.str_size) 0 s5.state.str_size) s5.state.dec_size).length =
              s5.state.dec_size := by
            rw [hmm, h5dec, hpd]
          refine ⟨_, tr_dec_comp F Z_NO_FLUSH _ s5 h5lvl (h5bt.trans hbtv) hlen
            (by rw [h5out, h5dec, hBO]; omega), ?_, ?_, ?_, ?_, ?_, ?_, ?_⟩
          · simp only [outWrite]
            rw [hmm, h5dec, hpd, h5wr]
          · simp [outWrite, h5next]
          · simpa [outWrite] using h5lvl
          · simpa [outWrite] using h5bsz
          · simp [outWrite]
          · simpa [outWrite] using h5hofs
          · simp [outWrite]
      obtain ⟨s4, htr, h4wr, h4next, h4lvl, h4bsz, h4str, h4hofs, h4obo⟩ := htrres
      have hrun := process_run_some F Z_NO_FLUSH true s _ _ _ _ s4 hdrain hacq hpay htr
      rw [hrun, end_no_flush]
      refine ⟨DPos.atHeader fs 0, f.payload.length - m, by omega, by omega, ?_, ?_, ?_, ?_⟩
      · exact h4next
      · refine ⟨h4lvl, h4bsz, h4obo, hoks, by unfold HEADER_SIZE; omega, h4str, h4hofs, ?_⟩
        simp [memRead]
      · rw [h4next, DPos.rest, List.drop_zero]
        have h1 := congrArg (List.drop (f.payload.length - m)) hrest
        rw [List.drop_append_of_le_length hcomp] at h1
        rw [h1]
        exact List.drop_left' (by simp)
      · rw [h4wr, DPos.decRest, DPos.decRest]
        simp
    · -- more payload needs staging
      push_neg at hcomp
      have hpay := pay_stage_incomplete Z_NO_FLUSH s (by omega) hne (by omega) rfl
      have hrun := process_run_none F Z_NO_FLUSH true s _ _ _ hdrain hacq hpay
      rw [hrun, end_no_flush]
      have htkw : s.next_in = (f.payload.drop m).take s.next_in.length := by
        have h1 : (s.next_in ++ t).take s.next_in.length = s.next_in :=
          List.take_left' rfl
        rw [hrest, List.take_append_of_le_length
          (by simp only [List.length_drop]; omega)] at h1
        exact h1.symm
      refine ⟨DPos.inPayload f fs (m + s.next_in.length), s.next_in.length,
        hlen0, le_refl _, by simp [inSeek], ?_, ?_, ?_⟩
      · refine ⟨by simpa [inSeek] using hlvl, by simpa [inSeek] using hbsz,
          by simpa [inSeek] using hobo, hval, hoks, by simpa [inSeek] using hbt,
          by simpa [inSeek] using hstr, by simpa [inSeek] using hdec,
          by simpa [inSeek] using hhofs, by simp [inSeek, hibo], by omega, ?_⟩
        simp only [inSeek]
        rw [hibo]
        have h1 := memRead_listWrite s.state.inBuff s.next_in m
        rw [h1, hmem, List.take_add, ← htkw]
      · simp only [inSeek, DPos.rest]
        rw [List.drop_length, List.nil_append]
        have h1 := congrArg (List.drop s.next_in.length) hrest
        rw [List.drop_left' rfl] at h1
        rw [h1, List.drop_append_of_le_length (by simp only [List.length_drop]; omega),
          List.drop_drop]
      · simp [inSeek, DPos.decRest]

/-! ### C1 : decoder loop and chunk-feed inductions -/

theorem rest_nil_decRest (F : FastLZ) (bs : Nat) (pos : DPos) (s : ZStream)
    (hinv : DecInv F bs pos s) (hrest : DPos.rest bs pos = []) :
    DPos.decRest pos = [] := by
  cases pos with
  | atHeader fs h =>
    obtain ⟨-, -, -, hfsok, hhlt, -, -, -⟩ := hinv
    cases fs with
    | nil => rfl
    | cons f fs =>
      exfalso
      rw [DPos.rest] at hrest
      have hlen : HEADER_SIZE ≤ (wireOf bs (f :: fs)).length := by
        rw [wireOf_cons, List.length_append, wireBytes_length]
        omega
      have h1 := congrArg List.length hrest
      rw [List.length_drop, List.length_nil] at h1
      omega
  | inPayload f fs m =>
    obtain ⟨-, -, -, -, -, -, -, -, -, -, hmlt, -⟩ := hinv
    exfalso
    rw [DPos.rest] at hrest
    have h1 := congrArg List.length hrest
    rw [List.length_append, List.length_drop, List.length_nil] at h1
    omega

theorem processLoop_dec (F : FastLZ) (bs : Nat) (hbsBig : bs ≤ 1048576) :
    ∀ (fuel : Nat) (pos : DPos) (s : ZStream) (t : List Nat),
      DecInv F bs pos s → s.next_in ++ t = DPos.rest bs pos →
      s.next_in.length < fuel →
      ∃ pos', DecInv F bs pos' (processLoop F Z_NO_FLUSH fuel s) ∧
        (processLoop F Z_NO_FLUSH fuel s).next_in = [] ∧
        t = DPos.rest bs pos' ∧
        (processLoop F Z_NO_FLUSH fuel s).written ++ DPos.decRest pos' =
          s.written ++ DPos.decRest pos := by
  intro fuel
  induction fuel with
  | zero =>
    intro pos s t _ _ hf
    omega
  | succ n ih =>
    intro pos s t hinv hrest hf
    by_cases hwin : s.next_in = []
    · rw [show processLoop F Z_NO_FLUSH (n + 1) s = s from by
        simp only [processLoop, if_pos hwin]]
      refine ⟨pos, hinv, hwin, ?_, rfl⟩
      rw [← hrest, hwin, List.nil_append]
    · rw [show processLoop F Z_NO_FLUSH (n + 1) s = processLoop F Z_NO_FLUSH n
        (fastlzlibProcess F { s with avail_out := BIG_OUT } Z_NO_FLUSH true).2 from by
        simp only [processLoop, if_neg hwin]]
      obtain ⟨pos', k, hk1, hkle, hnx, hdi, hrest', hcons⟩ :=
        dec_step F bs hbsBig pos { s with avail_out := BIG_OUT } t
          (by exact hinv) rfl (by exact hrest) (by exact hwin)
      have hlen' :
          (fastlzlibProcess F { s with avail_out := BIG_OUT } Z_NO_FLUSH true).2.next_in.length
            < n := by
        rw [hnx, List.length_drop]
        have : ({ s with avail_out := BIG_OUT } : ZStream).next_in.length =
            s.next_in.length := rfl
        omega
      obtain ⟨pos2, hdi2, hwin2, hrest2, hcons2⟩ := ih pos' _ t hdi hrest' hlen'
      refine ⟨pos2, hdi2, hwin2, hrest2, ?_⟩
      rw [hcons2, hcons]

theorem feedChunks_dec (F : FastLZ) (bs : Nat) (hbsBig : bs ≤ 1048576) :
    ∀ (chunks : List (List Nat)) (pos : DPos) (s : ZStream),
      DecInv F bs pos s → s.next_in = [] →
      chunks.flatten = DPos.rest bs pos →
      ∃ pos', DecInv F bs pos' (feedChunks F Z_NO_FLUSH chunks s) ∧
        (feedChunks F Z_NO_FLUSH chunks s).next_in = [] ∧
        DPos.rest bs pos' = [] ∧
        (feedChunks F Z_NO_FLUSH chunks s).written ++ DPos.decRest pos' =
          s.written ++ DPos.decRest pos := by
  intro chunks
  induction chunks with
  | nil =>
    intro pos s hinv hwin hfl
    refine ⟨pos, hinv, hwin, ?_, rfl⟩
    rw [← hfl]
    rfl
  | cons c cs ih =>
    intro pos s hinv hwin hfl
    have hg : feedChunks F Z_NO_FLUSH (c :: cs) s =
        feedChunks F Z_NO_FLUSH cs (processLoop F Z_NO_FLUSH
          (c.length + s.next_in.length + 1) { s with next_in := s.next_in ++ c }) := rfl
    rw [hg, hwin]
    simp only [List.nil_append, List.length_nil]
    obtain ⟨pos1, hdi1, hwin1, hrest1, hcons1⟩ :=
      processLoop_dec F bs hbsBig (c.length + 0 + 1) pos { s with next_in := c } cs.flatten
        (by exact hinv) (by rw [← hfl]; rfl) (by simp)
    obtain ⟨pos2, hdi2, hwin2, hrest2, hcons2⟩ := ih pos1 _ hdi1 hwin1 hrest1
    refine ⟨pos2, hdi2, hwin2, hrest2, ?_⟩
    rw [hcons2, hcons1]

/-! ### C1 : the decoder end to end -/

theorem decode_frames (F : FastLZ) (bs : Nat) (hbs32 : bs < 4294967296)
    (hbsBig : bs ≤ 1048576) (fs : List Frame) (hfs : FramesOk F bs fs)
    (ochunks : List (List Nat)) (hw : ochunks.flatten = wireOf bs fs) :
    (decompressRun F (bs : Int) ochunks).written = (fs.map Frame.decoded).flatten := by
  have hinit : DecInv F bs (DPos.atHeader fs 0)
      (mkStream (fastlzlibDecompressInit2 (bs : Int)) [] 0) := by
    refine ⟨rfl, ?_, rfl, hfs, by unfold HEADER_SIZE; omega, rfl, rfl, by simp [memRead]⟩
    show ((bs : Int) % 4294967296).toNat = bs
    omega
  obtain ⟨pos', hdi, hwin, hrest0, hcons⟩ :=
    feedChunks_dec F bs hbsBig ochunks (DPos.atHeader fs 0)
      (mkStream (fastlzlibDecompressInit2 (bs : Int)) [] 0) hinit rfl
      (by rw [hw, DPos.rest, List.drop_zero])
  have hdr : DPos.decRest pos' = [] := rest_nil_decRest F bs pos' _ hdi hrest0
  rw [hdr, List.append_nil] at hcons
  unfold decompressRun
  rw [hcons]
  rfl

/-! ### C1 : the encoder side -/

theorem headerComp_no_flush (s : ZStream) :
    processHeaderCompress Z_NO_FLUSH true s = .ok (0,
      { s with state := { s.state with
          block_type := BLOCK_TYPE_COMPRESSED, str_size := s.state.block_size,
          dec_size := 0 } }) := by
  have h1 : ¬ (s.state.block_size > s.avail_in ∧ ¬((Z_NO_FLUSH:Int) > Z_NO_FLUSH) ∧
      ¬ True) := by
    rintro ⟨-, -, h3⟩
    exact h3 trivial
  have h2 : ¬ (s.state.block_size > s.avail_in ∧ (Z_NO_FLUSH : Int) > Z_NO_FLUSH) := by
    rintro ⟨-, h⟩
    omega
  unfold processHeaderCompress
  simp only []
  rw [if_neg h1, if_neg h2]

set_option maxHeartbeats 2000000 in
theorem enc_step (F : FastLZ) (bs : Nat) (lv : Int)
    (hlv0 : 0 ≤ lv) (hbs1 : 64 ≤ bs) (hbs2 : bs ≤ 1048576)
    (staged : List Nat) (s : ZStream)
    (hinv : EncInv bs lv staged s)
    (hout : s.avail_out = BIG_OUT)
    (hne : s.next_in ≠ []) :
    ∃ (staged' : List Nat) (k : Nat),
      1 ≤ k ∧ k ≤ s.next_in.length ∧
      EncInv bs lv staged' (fastlzlibProcess F s Z_NO_FLUSH true).2 ∧
      (fastlzlibProcess F s Z_NO_FLUSH true).2.next_in = s.next_in.drop k ∧
      ((fastlzlibProcess F s Z_NO_FLUSH true).2.written = s.written ∧
          staged' = staged ++ s.next_in.take k
        ∨ ((fastlzlibProcess F s Z_NO_FLUSH true).2.written =
            s.written ++ cblock F (zlibLevelToFastlz lv) bs (staged ++ s.next_in.take k) ∧
          (staged ++ s.next_in.take k).length = bs ∧ staged' = [])) := by
  obtain ⟨hlvl, hbsz, hdec0, hobo0, hmode⟩ := hinv
  have hlen0 : 0 < s.next_in.length := List.length_pos.mpr hne
  have hBO : BIG_OUT = 1073741824 := rfl
  have hlvlne : ¬ s.state.level = ZFAST_LEVEL_DECOMPRESS := by
    intro h
    rw [hlvl] at h
    unfold ZFAST_LEVEL_DECOMPRESS at h
    omega
  have hdrain : ¬ s.state.outBuffOffs < s.state.dec_size := by omega
  rcases hmode with ⟨hstg, hstr0⟩ | ⟨hstg, hstrbs, hibo, hmlt, hmem⟩
  · -- idle: synthesize a header for a full block
    have hifhdr : (if s.state.level = ZFAST_LEVEL_DECOMPRESS then
        processHeaderDecompress true s else processHeaderCompress Z_NO_FLUSH true s) =
        .ok (0, { s with state := { s.state with
          block_type := BLOCK_TYPE_COMPRESSED, str_size := s.state.block_size,
          dec_size := 0 } }) := by
      rw [if_neg hlvlne]
      exact headerComp_no_flush s
    by_cases hbsw : bs ≤ s.next_in.length
    · -- a full block is available: grab and emit it in one call
      have hchk := checks_data_direct 0
        { { s with state := { s.state with
              block_type := BLOCK_TYPE_COMPRESSED, str_size := s.state.block_size,
              dec_size := 0 } } with state :=
            { { s with state := { s.state with
                  block_type := BLOCK_TYPE_COMPRESSED, str_size := s.state.block_size,
                  dec_size := 0 } }.state with
              outBuffOffs := 0 } }
        (Or.inr (by simp)) (by simp) (by simp)
        (by simp only []; show s.state.block_size ≤ bufferBlockSize s.state.block_size
            unfold bufferBlockSize HEADER_SIZE
            omega)
        (by simp only []; intro hc; rw [hbsz] at hc; omega)
        (by simp only []; show s.state.block_size ≤ s.next_in.length
            omega)
      have hacq : processAcquire Z_NO_FLUSH true s = .ok
          (some (s.next_in.take s.state.block_size), inSeek
            { s with state := { s.state with
                block_type := BLOCK_TYPE_COMPRESSED, str_size := s.state.block_size,
                dec_size := 0, outBuffOffs := 0 } }
            s.state.block_size) := by
        rw [processAcquire_ok Z_NO_FLUSH true s 0 _ hstr0 hifhdr]
        exact hchk
      set s3 : ZStream := inSeek
          { s with state := { s.state with
              block_type := BLOCK_TYPE_COMPRESSED, str_size := s.state.block_size,
              dec_size := 0, outBuffOffs := 0 } }
          s.state.block_size with hs3
      have hfn : (if (Z_NO_FLUSH : Int) = Z_FINISH ∧ s3.avail_in ≠ 0 then Z_NO_FLUSH
          else Z_NO_FLUSH) = Z_NO_FLUSH := ite_self _
      have htr := tr_comp F Z_NO_FLUSH (s.next_in.take s.state.block_size) s3
        (by simpa [hs3, inSeek] using hlvlne)
        (by simp only [hs3, inSeek]
            show s.state.block_size + s.state.block_size / 10 + 66 ≤ s.avail_out
            rw [hout, hBO]
            omega)
      rw [hfn] at htr
      have hmr : memRead (s.next_in.take s.state.block_size) 0 s3.state.str_size =
          s.next_in.take s.state.block_size := by
        have : (s.next_in.take s.state.block_size).length = s3.state.str_size := by
          simp only [hs3, inSeek, List.length_take]
          rw [hbsz]
          omega
        rw [← this]
        exact memRead_eq_self _
      rw [hmr] at htr
      have hrun := process_run_some F Z_NO_FLUSH true s _ _ _ _ _ hdrain hacq
        (pay_some _ _ _) htr
      rw [hrun, end_no_flush]
      refine ⟨[], bs, by omega, hbsw, ?_, ?_, Or.inr ⟨?_, ?_, rfl⟩⟩
      · refine ⟨by simpa [hs3, inSeek, outWrite] using hlvl,
          by simpa [hs3, inSeek, outWrite] using hbsz,
          by simp [hs3, inSeek, outWrite], by simp [hs3, inSeek, outWrite],
          Or.inl ⟨rfl, by simp [hs3, inSeek, outWrite]⟩⟩
      · simp only [hs3, inSeek, outWrite]
        rw [hbsz]
      · simp only [hs3, inSeek, outWrite]
        rw [hstg, cblock, List.nil_append, hbsz, hlvl]
      · rw [hstg, List.nil_append, List.length_take]
        omega
    · -- less than a block: the window is staged into inBuff
      push_neg at hbsw
      have hchk := checks_data_buffer 0
        { { s with state := { s.state with
              block_type := BLOCK_TYPE_COMPRESSED, str_size := s.state.block_size,
              dec_size := 0 } } with state :=
            { { s with state := { s.state with
                  block_type := BLOCK_TYPE_COMPRESSED, str_size := s.state.block_size,
                  dec_size := 0 } }.state with
              outBuffOffs := 0 } }
        (Or.inr (by simp)) (by simp) (by simp)
        (by simp only []; show s.state.block_size ≤ bufferBlockSize s.state.block_size
            unfold bufferBlockSize HEADER_SIZE
            omega)
        (by simp only []; intro hc; rw [hbsz] at hc; omega)
        (by simp only []; show s.next_in.length < s.state.block_size
            omega)
      have hacq : processAcquire Z_NO_FLUSH true s = .ok (none,
          { s with state := { s.state with
              block_type := BLOCK_TYPE_COMPRESSED, str_size := s.state.block_size,
              dec_size := 0, outBuffOffs := 0, inBuffOffs := 0 } }) := by
        rw [processAcquire_ok Z_NO_FLUSH true s 0 _ hstr0 hifhdr]
        exact hchk
      set s2b : ZStream := { s with state := { s.state with
          block_type := BLOCK_TYPE_COMPRESSED, str_size := s.state.block_size,
          dec_size := 0, outBuffOffs := 0, inBuffOffs := 0 } } with hs2b
      have hpay := pay_stage_incomplete Z_NO_FLUSH s2b
        (by simp only [hs2b]; show (0:Nat) < s.state.block_size; omega)
        (by simpa [hs2b] using hne)
        (by simp only [hs2b]; show 0 + s.next_in.length < s.state.block_size; omega) rfl
      have hrun := process_run_none F Z_NO_FLUSH true s _ _ _ hdrain hacq hpay
      rw [hrun, end_no_flush]
      refine ⟨s.next_in, s.next_in.length, hlen0, le_refl _, ?_,
        by simp [hs2b, inSeek], Or.inl ⟨by simp [hs2b, inSeek], ?_⟩⟩
      · refine ⟨by simpa [hs2b, inSeek] using hlvl, by simpa [hs2b, inSeek] using hbsz,
          by simp [hs2b, inSeek], by simp [hs2b, inSeek], Or.inr ⟨hne, ?_, ?_, ?_, ?_⟩⟩
        · simpa [hs2b, inSeek] using hbsz
        · simp [hs2b, inSeek]
        · omega
        · simp only [hs2b, inSeek]
          exact memRead_listWrite_zero _ _
      · rw [hstg, List.nil_append, List.take_length]
  · -- staging mode: append window bytes to the partial block
    have hstrne : s.state.str_size ≠ 0 := by omega
    have hacq := processAcquire_pass Z_NO_FLUSH true s hstrne
    by_cases hful : s.state.str_size - s.state.inBuffOffs ≤ s.next_in.length
    · -- the block completes: emit it
      have hpay := pay_stage_complete Z_NO_FLUSH s (by omega) hful
      set s5 : ZStream := inSeek { s with state := { s.state with
          inBuff := listWrite s.state.inBuff s.state.inBuffOffs
            (s.next_in.take (s.state.str_size - s.state.inBuffOffs))
          inBuffOffs := s.state.inBuffOffs +
            (s.state.str_size - s.state.inBuffOffs) } }
        (s.state.str_size - s.state.inBuffOffs) with hs5
      have hL : memRead (listWrite s.state.inBuff s.state.inBuffOffs
          (s.next_in.take (s.state.str_size - s.state.inBuffOffs))) 0 s.state.str_size =
          staged ++ s.next_in.take (bs - staged.length) := by
        have h1 := memRead_listWrite s.state.inBuff
          (s.next_in.take (s.state.str_size - s.state.inBuffOffs)) s.state.inBuffOffs
        rw [List.length_take] at h1
        have hmineq : s.state.inBuffOffs +
            min (s.state.str_size - s.state.inBuffOffs) s.next_in.length =
            s.state.str_size := by omega
        rw [hmineq] at h1
        rw [h1, hibo, hmem, hstrbs]
      have hfn : (if (Z_NO_FLUSH : Int) = Z_FINISH ∧ s5.avail_in ≠ 0 then Z_NO_FLUSH
          else Z_NO_FLUSH) = Z_NO_FLUSH := ite_self _
      have htr := tr_comp F Z_NO_FLUSH (memRead (listWrite s.state.inBuff s.state.inBuffOffs
          (s.next_in.take (s.state.str_size - s.state.inBuffOffs))) 0 s.state.str_size) s5
        (by simpa [hs5, inSeek] using hlvlne)
        (by simp only [hs5, inSeek]
            show s.state.str_size + s.state.str_size / 10 + 66 ≤ s.avail_out
            rw [hout, hBO, hstrbs]
            omega)
      rw [hfn] at htr
      have hmr : memRead (memRead (listWrite s.state.inBuff s.state.inBuffOffs
          (s.next_in.take (s.state.str_size - s.state.inBuffOffs))) 0 s.state.str_size) 0
          s5.state.str_size = staged ++ s.next_in.take (bs - staged.length) := by
        have h5str : s5.state.str_size = s.state.str_size := by simp [hs5, inSeek]
        rw [h5str, memRead_memRead_self]
        exact hL
      rw [hmr] at htr
      have hrun := process_run_some F Z_NO_FLUSH true s _ _ _ _ _ hdrain hacq hpay htr
      rw [hrun, end_no_flush]
      refine ⟨[], bs - staged.length, by omega, by omega, ?_, ?_, Or.inr ⟨?_, ?_, rfl⟩⟩
      · refine ⟨by simpa [hs5, inSeek, outWrite] using hlvl,
          by simpa [hs5, inSeek, outWrite] using hbsz,
          by simp [hs5, inSeek, outWrite, hdec0], by simp [hs5, inSeek, outWrite, hdec0],
          Or.inl ⟨rfl, by simp [hs5, inSeek, outWrite]⟩⟩
      · simp only [hs5, inSeek, outWrite]
        rw [hstrbs, hibo]
      · simp only [hs5, inSeek, outWrite]
        rw [cblock, hbsz, hlvl]
      · rw [List.length_append, List.length_take]
        omega
    · -- the block still does not complete: stage the whole window
      push_neg at hful
      have hpay := pay_stage_incomplete Z_NO_FLUSH s (by omega) hne (by omega) rfl
      have hrun := process_run_none F Z_NO_FLUSH true s _ _ _ hdrain hacq hpay
      rw [hrun, end_no_flush]
      refine ⟨staged ++ s.next_in, s.next_in.length, hlen0, le_refl _, ?_,
        by simp [inSeek], Or.inl ⟨by simp [inSeek], by rw [List.take_length]⟩⟩
      refine ⟨by simpa [inSeek] using hlvl, by simpa [inSeek] using hbsz,
        by simp [inSeek, hdec0], by simp [inSeek, hobo0],
        Or.inr ⟨by intro hc; exact hne (List.append_eq_nil.mp hc).2, ?_, ?_, ?_, ?_⟩⟩
      · simpa [inSeek] using hstrbs
      · simp [inSeek, hibo, List.length_append]
      · simp only [List.length_append]
        omega
      · simp only [inSeek]
        rw [hibo, List.length_append]
        have h1 := memRead_listWrite s.state.inBuff s.next_in staged.length
        rw [h1, hmem]

theorem processLoop_enc (F : FastLZ) (bs : Nat) (lv : Int)
    (hlv0 : 0 ≤ lv) (hbs1 : 64 ≤ bs) (hbs2 : bs ≤ 1048576) :
    ∀ (fuel : Nat) (staged : List Nat) (s : ZStream),
      EncInv bs lv staged s → s.next_in.length < fuel →
      ∃ (staged' : List Nat) (ps : List (List Nat)),
        EncInv bs lv staged' (processLoop F Z_NO_FLUSH fuel s) ∧
        (processLoop F Z_NO_FLUSH fuel s).next_in = [] ∧
        (processLoop F Z_NO_FLUSH fuel s).written =
          s.written ++ (ps.map (cblock F (zlibLevelToFastlz lv) bs)).flatten ∧
        (∀ p ∈ ps, p.length = bs) ∧
        ps.flatten ++ staged' = staged ++ s.next_in := by
  intro fuel
  induction fuel with
  | zero =>
    intro staged s _ hf
    omega
  | succ n ih =>
    intro staged s hinv hf
    by_cases hwin : s.next_in = []
    · rw [show processLoop F Z_NO_FLUSH (n + 1) s = s from by
        simp only [processLoop, if_pos hwin]]
      exact ⟨staged, [], hinv, hwin, by simp, by simp, by simp [hwin]⟩
    · rw [show processLoop F Z_NO_FLUSH (n + 1) s = processLoop F Z_NO_FLUSH n
        (fastlzlibProcess F { s with avail_out := BIG_OUT } Z_NO_FLUSH true).2 from by
        simp only [processLoop, if_neg hwin]]
      obtain ⟨staged1, k, hk1, hkle, hinv1, hnx, hemit⟩ :=
        enc_step F bs lv hlv0 hbs1 hbs2 staged { s with avail_out := BIG_OUT }
          (by exact hinv) rfl (by exact hwin)
      have hlen' :
          (fastlzlibProcess F { s with avail_out := BIG_OUT } Z_NO_FLUSH true).2.next_in.length
            < n := by
        rw [hnx, List.length_drop]
        have : ({ s with avail_out := BIG_OUT } : ZStream).next_in.length =
            s.next_in.length := rfl
        omega
      obtain ⟨staged2, ps, hinv2, hwin2, hwr2, hlens, hfl2⟩ := ih staged1 _ hinv1 hlen'
      rcases hemit with ⟨hwr1, hstg1⟩ | ⟨hwr1, hplen, hstg1⟩
      · refine ⟨staged2, ps, hinv2, hwin2, ?_, hlens, ?_⟩
        · rw [hwr2, hwr1]
        · rw [hfl2, hstg1, hnx, List.append_assoc, List.take_append_drop]
      · refine ⟨staged2, (staged ++ s.next_in.take k) :: ps, hinv2, hwin2, ?_, ?_, ?_⟩
        · rw [hwr2, hwr1, List.map_cons, List.flatten_cons, List.append_assoc]
        · intro p hp
          rcases List.mem_cons.mp hp with h | h
          · rw [h, hplen]
          · exact hlens p h
        · rw [List.flatten_cons, List.append_assoc, hfl2, hstg1, hnx,
            List.nil_append, List.append_assoc, List.take_append_drop]

theorem feedChunks_enc (F : FastLZ) (bs : Nat) (lv : Int)
    (hlv0 : 0 ≤ lv) (hbs1 : 64 ≤ bs) (hbs2 : bs ≤ 1048576) :
    ∀ (chunks : List (List Nat)) (staged : List Nat) (s : ZStream),
      EncInv bs lv staged s → s.next_in = [] →
      ∃ (staged' : List Nat) (ps : List (List Nat)),
        EncInv bs lv staged' (feedChunks F Z_NO_FLUSH chunks s) ∧
        (feedChunks F Z_NO_FLUSH chunks s).next_in = [] ∧
        (feedChunks F Z_NO_FLUSH chunks s).written =
          s.written ++ (ps.map (cblock F (zlibLevelToFastlz lv) bs)).flatten ∧
        (∀ p ∈ ps, p.length = bs) ∧
        ps.flatten ++ staged' = staged ++ chunks.flatten := by
  intro chunks
  induction chunks with
  | nil =>
    intro staged s hinv hwin
    exact ⟨staged, [], hinv, hwin, by simp [feedChunks], by simp, by simp⟩
  | cons c cs ih =>
    intro staged s hinv hwin
    have hg : feedChunks F Z_NO_FLUSH (c :: cs) s =
        feedChunks F Z_NO_FLUSH cs (processLoop F Z_NO_FLUSH
          (c.length + s.next_in.length + 1) { s with next_in := s.next_in ++ c }) := rfl
    rw [hg, hwin]
    simp only [List.nil_append, List.length_nil]
    obtain ⟨staged1, ps1, hinv1, hwin1, hwr1, hlens1, hfl1⟩ :=
      processLoop_enc F bs lv hlv0 hbs1 hbs2 (c.length + 0 + 1) staged
        { s with next_in := c } (by exact hinv) (by simp)
    obtain ⟨staged2, ps2, hinv2, hwin2, hwr2, hlens2, hfl2⟩ := ih staged1 _ hinv1 hwin1
    refine ⟨staged2, ps1 ++ ps2, hinv2, hwin2, ?_, ?_, ?_⟩
    · rw [hwr2, hwr1, List.map_append, List.flatten_append, List.append_assoc]
    · intro p hp
      rcases List.mem_append.mp hp with h | h
      · exact hlens1 p h
      · exact hlens2 p h
    · rw [List.flatten_append, List.append_assoc, hfl2, ← List.append_assoc, hfl1,
        List.flatten_cons, List.append_assoc]

theorem enc_finish (F : FastLZ) (bs : Nat) (lv : Int)
    (hlv0 : 0 ≤ lv) (hbs1 : 64 ≤ bs) (hbs2 : bs ≤ 1048576)
    (staged : List Nat) (s : ZStream)
    (hinv : EncInv bs lv staged s) (hwin : s.next_in = []) :
    (finishLoop F 2 s).2 = true ∧
    (finishLoop F 2 s).1.written = s.written ++
      (if staged = [] then ([] : List Nat)
       else Frame.wireBytes bs (pieceFrame F (zlibLevelToFastlz lv) staged) ++
         Frame.wireBytes bs eofFrame) := by
  obtain ⟨hlvl, hbsz, hdec0, hobo0, hmode⟩ := hinv
  have hBO : BIG_OUT = 1073741824 := rfl
  have hlvlne : ¬ s.state.level = ZFAST_LEVEL_DECOMPRESS := by
    intro h
    rw [hlvl] at h
    unfold ZFAST_LEVEL_DECOMPRESS at h
    omega
  have hdrain : ¬ s.state.outBuffOffs < s.state.dec_size := by omega
  rcases hmode with ⟨hstg, hstr0⟩ | ⟨hstg, hstrbs, hibo, hmlt, hmem⟩
  · -- nothing staged: the early STREAM_END return, no EOF marker written
    obtain ⟨st', hrun⟩ := process_compress_empty_finish F { s with avail_out := BIG_OUT }
      (by exact hlvlne) (by exact hwin) (by exact hstr0) (by exact hdrain)
    rw [show finishLoop F 2 s = ({ { s with avail_out := BIG_OUT } with state := st' }, true)
      from by simp only [finishLoop, hrun]]
    rw [hstg]
    simp
  · -- a partial block is staged: it is flushed, followed by the EOF marker
    have hacq := processAcquire_pass Z_FINISH true { s with avail_out := BIG_OUT }
      (by simp only []; omega)
    have hpay := pay_finish_truncate Z_FINISH { s with avail_out := BIG_OUT }
      (by simp only []; omega) (by exact hwin) (by unfold Z_FINISH Z_NO_FLUSH; omega)
    set s6 : ZStream := { ({ s with avail_out := BIG_OUT } : ZStream) with
        state := { s.state with str_size := s.state.inBuffOffs } } with hs6
    have hfn : (if (Z_FINISH : Int) = Z_FINISH ∧ s6.avail_in ≠ 0 then Z_NO_FLUSH
        else Z_FINISH) = Z_FINISH := by
      rw [if_neg]
      rintro ⟨-, h⟩
      exact h (by simp [hs6, ZStream.avail_in, hwin])
    have htr := tr_comp F Z_FINISH (memRead s.state.inBuff 0 s.state.inBuffOffs) s6
      (by simpa [hs6] using hlvlne)
      (by simp only [hs6]
          show s.state.inBuffOffs + s.state.inBuffOffs / 10 + 66 ≤ BIG_OUT
          rw [hBO]
          omega)
    rw [hfn] at htr
    have hmr : memRead (memRead s.state.inBuff 0 s.state.inBuffOffs) 0 s6.state.str_size =
        staged := by
      have h6str : s6.state.str_size = s.state.inBuffOffs := by simp [hs6]
      rw [h6str, memRead_memRead_self, hibo]
      exact hmem
    rw [hmr] at htr
    have hprod : fastlz_compress_hdr F staged s6.state.block_size
        (zlibLevelToFastlz s6.state.level) Z_FINISH =
        Frame.wireBytes bs (pieceFrame F (zlibLevelToFastlz lv) staged) ++
          Frame.wireBytes bs eofFrame := by
      have h6bs : s6.state.block_size = bs := by
        simp only [hs6]
        exact hbsz
      have h6lv : s6.state.level = lv := by
        simp only [hs6]
        exact hlvl
      rw [h6bs, h6lv]
      exact compress_hdr_finish F _ bs staged hstg
    rw [hprod] at htr
    have hrun := process_run_some F Z_FINISH true { s with avail_out := BIG_OUT }
      _ _ _ _ _ hdrain hacq hpay htr
    have hend := end_finish (outWrite { s6 with state := { s6.state with
        outBuffOffs := s6.state.dec_size, str_size := 0 } }
      (Frame.wireBytes bs (pieceFrame F (zlibLevelToFastlz lv) staged) ++
        Frame.wireBytes bs eofFrame))
      (by simp [hs6, outWrite, hwin]) (by simp [hs6, outWrite, hdec0])
    rw [hend] at hrun
    rw [show finishLoop F 2 s = (outWrite { s6 with state := { s6.state with
        outBuffOffs := s6.state.dec_size, str_size := 0 } }
      (Frame.wireBytes bs (pieceFrame F (zlibLevelToFastlz lv) staged) ++
        Frame.wireBytes bs eofFrame), true) from by simp only [finishLoop, hrun]]
    rw [if_neg hstg]
    simp [hs6, outWrite]

theorem pieceFrame_decoded (F : FastLZ) (lv : Nat) (p : List Nat) :
    (pieceFrame F lv p).decoded = p := by
  unfold pieceFrame
  split <;> rfl

/-! ### C1 : the encoder end to end -/

theorem encode_frames (F : FastLZ) (lv bs : Int)
    (hlv : 0 ≤ lv ∧ lv ≤ 9) (hbs : 64 ≤ bs ∧ bs ≤ 1048576)
    (hinvF : ∀ n x, F.decompress (F.compress n x) x.length = x)
    (hbound : ∀ n x, (F.compress n x).length ≤ x.length + x.length / 10)
    (ichunks : List (List Nat)) :
    ∃ fs : List Frame, FramesOk F bs.toNat fs ∧
      (compressRun F lv bs ichunks).1.written = wireOf bs.toNat fs ∧
      (fs.map Frame.decoded).flatten = ichunks.flatten ∧
      (compressRun F lv bs ichunks).2 = true := by
  have hbn1 : 64 ≤ bs.toNat := by omega
  have hbn2 : bs.toNat ≤ 1048576 := by omega
  have hinit : EncInv bs.toNat lv [] (mkStream (fastlzlibCompressInit2 lv bs) [] 0) := by
    refine ⟨?_, ?_, rfl, rfl, Or.inl ⟨rfl, rfl⟩⟩
    · show (if lv < 0 ∨ lv > 9 then (9:Int) else lv) = lv
      rw [if_neg (by omega)]
    · show ((bs % 4294967296).toNat) = bs.toNat
      omega
  obtain ⟨staged, ps, hinv1, hwin1, hwr1, hlens, hfl⟩ :=
    feedChunks_enc F bs.toNat lv hlv.1 hbn1 hbn2 ichunks []
      (mkStream (fastlzlibCompressInit2 lv bs) [] 0) hinit rfl
  obtain ⟨hfin, hfwr⟩ := enc_finish F bs.toNat lv hlv.1 hbn1 hbn2 staged _ hinv1 hwin1
  have hrun : compressRun F lv bs ichunks =
      finishLoop F 2 (feedChunks F Z_NO_FLUSH ichunks
        (mkStream (fastlzlibCompressInit2 lv bs) [] 0)) := rfl
  have hpnil : ∀ p ∈ ps, p ≠ [] := by
    intro p hp hc
    have h1 := hlens p hp
    rw [hc] at h1
    simp at h1
    omega
  have hsmall : staged = [] ∨ staged ≠ [] ∧ staged.length < bs.toNat := by
    obtain ⟨-, -, -, -, hmode⟩ := hinv1
    rcases hmode with ⟨h1, -⟩ | ⟨h1, -, -, h4, -⟩
    · exact Or.inl h1
    · exact Or.inr ⟨h1, h4⟩
  refine ⟨ps.map (pieceFrame F (zlibLevelToFastlz lv)) ++
    (if staged = [] then [] else
      [pieceFrame F (zlibLevelToFastlz lv) staged, eofFrame]), ?_, ?_, ?_, ?_⟩
  · -- the emitted frames are well formed
    apply framesOk_append
    · intro f hf
      obtain ⟨p, hp, hpf⟩ := List.mem_map.mp hf
      rw [← hpf]
      exact pieceFrame_valid F _ bs.toNat p hbound hinvF (hpnil p hp)
        (le_of_eq (hlens p hp)) hbn2
    · rcases hsmall with h | ⟨h1, h2⟩
      · rw [if_pos h]
        trivial
      · rw [if_neg h1]
        exact Or.inl ⟨pieceFrame_valid F _ bs.toNat staged hbound hinvF h1
          (le_of_lt h2) hbn2, Or.inr ⟨rfl, rfl⟩⟩
  · -- the bytes written are the wire form of those frames
    rw [hrun, hfwr, hwr1, wireOf, List.map_append, List.flatten_append, List.map_map]
    have hmapeq : ps.map (Frame.wireBytes bs.toNat ∘ pieceFrame F (zlibLevelToFastlz lv)) =
        ps.map (cblock F (zlibLevelToFastlz lv) bs.toNat) := by
      apply List.map_congr_left
      intro p hp
      exact (cblock_eq_wire F _ _ p (hpnil p hp)).symm
    rw [hmapeq]
    simp only [mkStream, List.nil_append]
    rcases hsmall with h | ⟨h1, -⟩
    · rw [if_pos h, if_pos h]
      simp
    · rw [if_neg h1, if_neg h1]
      simp
  · -- the frames decode back to the original input
    rw [List.map_append, List.flatten_append, List.map_map]
    have hmapeq : ps.map (Frame.decoded ∘ pieceFrame F (zlibLevelToFastlz lv)) =
        ps.map id := by
      apply List.map_congr_left
      intro p hp
      exact pieceFrame_decoded F _ p
    rw [hmapeq, List.map_id]
    rcases hsmall with h | ⟨h1, -⟩
    · rw [if_pos h]
      rw [h, List.append_nil] at hfl
      simpa using hfl
    · rw [if_neg h1]
      simp only [List.map_cons, List.map_nil, List.flatten_cons, List.flatten_nil,
        pieceFrame_decoded]
      rw [show eofFrame.decoded = [] from rfl]
      simpa using hfl
  · rw [hrun]
    exact hfin

/-! ### C1 : the round-trip claim -/

/-- C1: for every byte sequence `X`, every compression level in `[0, 9]`, every
block size in `[64, 2^20]`, every partition of `X` into input chunks and every
partition of the produced bytes into output chunks, running the compress stream
over the input chunks with a terminating `FINISH` and then the decompress
stream over the produced chunks yields exactly `X` — assuming the external
`fastlz` block primitives are lossless inverses within their documented
expansion bound. -/
theorem C1_roundtrip (F : FastLZ) (lv bs : Int)
    (hlv : 0 ≤ lv ∧ lv ≤ 9) (hbs : 64 ≤ bs ∧ bs ≤ 1048576)
    (hinvF : ∀ n x, F.decompress (F.compress n x) x.length = x)
    (hbound : ∀ n x, (F.compress n x).length ≤ x.length + x.length / 10)
    (X : List Nat) (ichunks ochunks : List (List Nat))
    (hX : ichunks.flatten = X)
    (hW : ochunks.flatten = (compressRun F lv bs ichunks).1.written) :
    (decompressRun F bs ochunks).written = X ∧
      (compressRun F lv bs ichunks).2 = true := by
  obtain ⟨fs, hok, hwr, hdec, hfin⟩ := encode_frames F lv bs hlv hbs hinvF hbound ichunks
  have hcast : ((bs.toNat : Nat) : Int) = bs := Int.toNat_of_nonneg (by omega)
  refine ⟨?_, hfin⟩
  have hd := decode_frames F bs.toNat (by omega) (by omega) fs hok ochunks
    (by rw [hW, hwr])
  rw [hcast] at hd
  rw [hd, hdec, hX]

/-- Witness for C1: a concrete lossless primitive pair, level 0, block size 64,
the one-byte input `[7]` fed as one chunk, and the produced bytes fed back as
one chunk. -/
theorem C1_roundtrip_witness :
    (decompressRun ⟨fun _ x => x, fun src _ => src⟩ 64
        [(compressRun ⟨fun _ x => x, fun src _ => src⟩ 0 64 [[7]]).1.written]).written
      = [7] ∧
    (compressRun ⟨fun _ x => x, fun src _ => src⟩ 0 64 [[7]]).2 = true :=
  C1_roundtrip ⟨fun _ x => x, fun src _ => src⟩ 0 64
    (by constructor <;> decide) (by constructor <;> decide)
    (fun n x => rfl) (fun n x => Nat.le_add_right _ _)
    [7] [[7]] [(compressRun ⟨fun _ x => x, fun src _ => src⟩ 0 64 [[7]]).1.written]
    (by simp) (by simp)

end Fastlzlib
